import Mathlib

/-!
Shallow embedding of the react-blessed reconciliation core.

Sources embedded here:
- `src/ReactBlessedComponent.js` (mountComponent / mountNode / receiveComponent /
  unmountComponent and the onAny event dispatcher);
- the reconcile transaction file (`ReactBlessedReconcileTransaction`).

The repository's `ReactBlessedIDOperations.js`, `update.js` and `solveClass.js` are
not present under `src/`; they are modelled from the spec (each such definition's
doc comment says so).  External collaborators (the blessed widget library, lodash's
`startCase`, React's `CallbackQueue`/`PooledClass`) are modelled from their
documented contracts.

Machine model: a reconciliation state carries the arena of live widgets (keyed by
numeric handles), the widget registry (node identifier to handle), the component
instances (node identifier to the instance fields `_currentElement` and
`_renderedChildren`), a chronological trace of the calls made against the widget
library, and the debounced-render flag of the blessed screen.  Node identifiers
are paths (`List Nat`); the parent identifier of `id ++ [i]` is `id`, and the
parent of a root identifier is the screen (widget handle 0).
-/

namespace RB

/-- A JavaScript prop value: number, string, boolean, or a function value
(identified by a numeric tag so that "which handler got invoked" is observable). -/
inductive PVal where
  | num (n : Int)
  | str (s : String)
  | bool (b : Bool)
  | func (f : Nat)
deriving DecidableEq, Repr

mutual

/-- A virtual element `{type, props}`.  The props object is split into its
non-`children` entries (`attrs`) and its `children` entry (`childrenProp`),
mirroring the destructuring `const {children, ...options} = props` in the source. -/
inductive VElement where
  | mk (type : String) (attrs : List (String × PVal)) (childrenProp : Children)

/-- The `children` prop: absent, a single element, or an array of elements. -/
inductive Children where
  | absent
  | single (e : VElement)
  | list (es : List VElement)

end

def VElement.type : VElement → String
  | .mk t _ _ => t

def VElement.attrs : VElement → List (String × PVal)
  | .mk _ a _ => a

def VElement.childrenProp : VElement → Children
  | .mk _ _ c => c

/-- `[].concat(children || [])` from the source: an absent `children` prop becomes
the empty list, a single child becomes a one-element list, an array stays itself. -/
def normalizeChildren : Children → List VElement
  | .absent => []
  | .single e => [e]
  | .list es => es

mutual

/-- Number of virtual nodes in an element's tree (the element itself plus all
descendants); this is the number of `mountComponent` operations a mount performs. -/
def treeSize : VElement → Nat
  | .mk _ _ c => 1 + childrenSize c

def childrenSize : Children → Nat
  | .absent => 0
  | .single e => treeSize e
  | .list es => listSize es

def listSize : List VElement → Nat
  | [] => 0
  | e :: es => treeSize e + listSize es

end

/-- Node identifiers are tree paths, assigned `id ++ [i]` for the `i`-th child. -/
abbrev NodeId := List Nat

/-- Association-list lookup (first match wins). -/
def alookup {α β : Type} [DecidableEq α] : List (α × β) → α → Option β
  | [], _ => none
  | (k, v) :: rest, a => if k = a then some v else alookup rest a

/-- Association-list write: replace the first entry with this key, or append. -/
def aset {α β : Type} [DecidableEq α] : List (α × β) → α → β → List (α × β)
  | [], a, b => [(a, b)]
  | (k, v) :: rest, a, b => if k = a then (a, b) :: rest else (k, v) :: aset rest a b

/-- Association-list delete (all entries with this key). -/
def adrop {α β : Type} [DecidableEq α] : List (α × β) → α → List (α × β)
  | [], _ => []
  | (k, v) :: rest, a => if k = a then adrop rest a else (k, v) :: adrop rest a

/-- Remove the first occurrence of a handle from a display-children list
(blessed's `parent.remove(node)`). -/
def eraseOne : List Nat → Nat → List Nat
  | [], _ => []
  | x :: xs, h => if x = h then xs else x :: eraseOne xs h

/-- `leads a b` holds when identifier `a` is an ancestor-or-self of `b`
(i.e. `a` is an initial segment of the path `b`). -/
def leads : NodeId → NodeId → Bool
  | [], _ => true
  | _ :: _, [] => false
  | a :: as, b :: bs => a = b && leads as bs

/-- One call made against the external widget library, recorded chronologically. -/
inductive Event where
  | createWidget (kind : String) (handle : Nat)
  | onAnyEvent (handle : Nat)
  | attach (parent child : Nat)
  | detach (parent child : Nat)
  | applyOptions (handle : Nat)
  | offAllEvents (handle : Nat)
  | redrawRequest
  | render
deriving DecidableEq, Repr

/-- A live blessed widget: its kind, its applied options, its display children
(handles, in order), and its `onAny` dispatcher (the identifier of the component
instance the dispatcher closure reads `_currentElement` from, if attached). -/
structure Widget where
  kind : String
  options : List (String × PVal)
  children : List Nat
  dispatcher : Option NodeId
deriving DecidableEq

/-- The fields of a mounted `ReactBlessedComponent` instance that the embedded
code reads: `_currentElement` (set by `construct`) and the `_renderedChildren`
bookkeeping maintained by the multi-child mixin (as the child elements last
reconciled, children living at `id ++ [0], id ++ [1], ...`). -/
structure CompState where
  currentElement : VElement
  renderedChildren : List VElement

/-- The whole reconciliation state. -/
structure RState where
  widgets : List (Nat × Widget)
  nextHandle : Nat
  registry : List (NodeId × Nat)
  components : List (NodeId × CompState)
  trace : List Event
  renderScheduled : Bool

/-- Errors: the `invariant` failure for an unknown blessed element, the
registry's unknown-identifier failure, and fuel exhaustion of the interpreter. -/
inductive RErr where
  | unknownWidgetType (t : String)
  | unknownNode (id : NodeId)
  | outOfFuel
deriving DecidableEq, Repr

/-- Outcome of an operation: a value plus the state, or an error plus the state
at the point of failure (mutations already committed are kept, not rolled back). -/
inductive MRes (α : Type) where
  | ok (a : α) (s : RState)
  | err (e : RErr) (s : RState)

/-- Final state of an outcome, whether it succeeded or failed. -/
def MRes.state {α : Type} : MRes α → RState
  | .ok _ s => s
  | .err _ s => s

/-- The widget kinds the blessed library exports as element constructors
(`blessed[type]` is truthy exactly for these). -/
def blessedTypes : List String :=
  ["box", "text", "list", "form", "input", "textarea", "textbox", "button",
   "checkbox", "radioset", "radiobutton", "table", "listtable", "listbar",
   "progressbar", "log", "line", "scrollablebox", "scrollabletext", "terminal",
   "layout", "message", "question", "prompt", "loading", "filemanager", "image"]

/-- Modelled from the spec: `solveClass` is the repository's attribute resolver,
a pure translation from declarative props (without `children`) to widget options.
Its internal mapping is out of the spec's scope, so it is modelled as the
identity translation. -/
def solveClass (options : List (String × PVal)) : List (String × PVal) := options

/-- Modelled from the spec: the repository's `update` helper applies new options
to the existing widget in place — the widget instance itself is never replaced,
only its live attributes. -/
def updateWidget (w : Widget) (options : List (String × PVal)) : Widget :=
  { w with options := List.foldl (fun acc kv => aset acc kv.1 kv.2) w.options options }

/-- Modelled from the spec: `ReactBlessedIDOperations.getParent` — the parent
widget handle for an identifier; a root identifier maps to the process-wide root
display surface (the screen, widget handle 0), any other identifier maps to the
registry entry of its parent identifier and fails with `UnknownNode` if absent. -/
def getParent (id : NodeId) (s : RState) : Except RErr Nat :=
  match id.dropLast with
  | [] => .ok 0
  | pid =>
    match alookup s.registry pid with
    | some h => .ok h
    | none => .error (.unknownNode pid)

/-- Upper-case the first character of a word (lodash `upperFirst`). -/
def upperFirst (w : String) : String :=
  match w.data with
  | [] => ""
  | c :: cs => String.mk (c.toUpper :: cs)

def splitWordsAux : List Char → List Char → List (List Char)
  | [], acc => if acc.isEmpty then [] else [acc.reverse]
  | c :: cs, acc =>
    if c = ' ' || c = '-' || c = '_' then
      if acc.isEmpty then splitWordsAux cs [] else acc.reverse :: splitWordsAux cs []
    else if c.isUpper && !acc.isEmpty && !(acc.headD ' ').isUpper then
      acc.reverse :: splitWordsAux cs [c]
    else
      splitWordsAux cs (c :: acc)

/-- lodash `startCase` (modelled): split into words at separators and
lower-to-upper boundaries, upper-case the first letter of each word, join with
single spaces.  For blessed's event names this sends `"press"` to `"Press"` and
`"key a"` to `"Key A"`. -/
def startCase (s : String) : String :=
  String.intercalate " " ((splitWordsAux s.data []).map (fun w => upperFirst (String.mk w)))

/-- The conventional handler prop key for an event: `'on' + startCase(type)`. -/
def handlerKey (eventName : String) : String := "on" ++ startCase eventName

/-- `mountNode` (source lines 78-100): validate the element type against the
blessed library, construct the widget, attach the generic `onAny` event
dispatcher (a closure over the component instance), and append the widget as the
last display child of the parent. -/
def mountNode (selfId : NodeId) (parent : Nat) (e : VElement) (s : RState) : MRes Nat :=
  if blessedTypes.contains e.type then
    let h := s.nextHandle
    let w : Widget := { kind := e.type, options := solveClass e.attrs,
                        children := [], dispatcher := some selfId }
    let s₁ : RState :=
      { s with widgets := aset s.widgets h w, nextHandle := h + 1,
               trace := s.trace ++ [Event.createWidget e.type h, Event.onAnyEvent h] }
    match alookup s₁.widgets parent with
    | none => .err (.unknownNode selfId) s₁
    | some pw =>
      .ok h { s₁ with
              widgets := aset s₁.widgets parent { pw with children := pw.children ++ [h] },
              trace := s₁.trace ++ [Event.attach parent h] }
  else
    .err (.unknownWidgetType e.type) s

mutual

/-- `mountComponent` (source lines 47-69): record the instance (`construct` set
`_currentElement`; the multi-child mixin will hold the rendered children), fetch
the parent widget handle, mount the blessed node, add the registry entry, mount
the children in order, and ask the screen for a debounced render. -/
def mountComponent : Nat → NodeId → VElement → RState → MRes Unit
  | 0, _, _, s => .err .outOfFuel s
  | fuel + 1, id, e, s =>
    let cs := normalizeChildren e.childrenProp
    let s₀ : RState := { s with components := aset s.components id ⟨e, cs⟩ }
    match getParent id s₀ with
    | .error er => .err er s₀
    | .ok p =>
      match mountNode id p e s₀ with
      | .err er s₁ => .err er s₁
      | .ok h s₁ =>
        let s₂ : RState := { s₁ with registry := aset s₁.registry id h }
        match mountChildren fuel id 0 cs s₂ with
        | .err er s₃ => .err er s₃
        | .ok _ s₃ =>
          .ok () { s₃ with trace := s₃.trace ++ [Event.redrawRequest],
                           renderScheduled := true }

/-- The multi-child mixin's initial mount: mount each child element in sequence
order, the `i`-th child at identifier `id ++ [i]`. -/
def mountChildren : Nat → NodeId → Nat → List VElement → RState → MRes Unit
  | 0, _, _, _, s => .err .outOfFuel s
  | _ + 1, _, _, [], s => .ok () s
  | fuel + 1, id, i, c :: rest, s =>
    match mountComponent fuel (id ++ [i]) c s with
    | .err er s₁ => .err er s₁
    | .ok _ s₁ => mountChildren fuel id (i + 1) rest s₁

end

mutual

/-- `unmountComponent` (source lines 129-141): recursively unmount the rendered
children first, then fetch the parent and the node, detach all event listeners
(`node.offAny()`), remove the widget from the parent's display children
(`parent.remove(node)`), and drop the registry entry.  No render is requested. -/
def unmountComponent : Nat → NodeId → RState → MRes Unit
  | 0, _, s => .err .outOfFuel s
  | fuel + 1, id, s =>
    match alookup s.components id with
    | none => .err (.unknownNode id) s
    | some comp =>
      match unmountChildren fuel id 0 comp.renderedChildren s with
      | .err er s₁ => .err er s₁
      | .ok _ s₁ =>
        match getParent id s₁ with
        | .error er => .err er s₁
        | .ok p =>
          match alookup s₁.registry id with
          | none => .err (.unknownNode id) s₁
          | some h =>
            match alookup s₁.widgets h, alookup s₁.widgets p with
            | some w, some pw =>
              let s₂ : RState :=
                { s₁ with widgets := aset s₁.widgets h { w with dispatcher := none },
                          trace := s₁.trace ++ [Event.offAllEvents h] }
              let s₃ : RState :=
                { s₂ with widgets := aset s₂.widgets p
                            { pw with children := eraseOne pw.children h },
                          trace := s₂.trace ++ [Event.detach p h] }
              .ok () { s₃ with registry := adrop s₃.registry id,
                               components := adrop s₃.components id }
            | _, _ => .err (.unknownNode id) s₁

/-- The multi-child mixin's teardown: unmount every rendered child in order. -/
def unmountChildren : Nat → NodeId → Nat → List VElement → RState → MRes Unit
  | 0, _, _, _, s => .err .outOfFuel s
  | _ + 1, _, _, [], s => .ok () s
  | fuel + 1, id, i, _ :: rest, s =>
    match unmountComponent fuel (id ++ [i]) s with
    | .err er s₁ => .err er s₁
    | .ok _ s₁ => unmountChildren fuel id (i + 1) rest s₁

end

mutual

/-- `receiveComponent` (source lines 112-124): fetch the node's widget from the
registry under the same identifier, apply the new options to it in place, then
reconcile the children against the previously rendered children, and ask the
screen for a debounced render.  Note that the source never reassigns
`this._currentElement`, so the stored current element stays the mount-time one. -/
def receiveComponent : Nat → NodeId → VElement → VElement → RState → MRes Unit
  | 0, _, _, _, s => .err .outOfFuel s
  | fuel + 1, id, nextE, _prevE, s =>
    match alookup s.registry id with
    | none => .err (.unknownNode id) s
    | some h =>
      match alookup s.widgets h with
      | none => .err (.unknownNode id) s
      | some w =>
        let s₁ : RState :=
          { s with widgets := aset s.widgets h (updateWidget w (solveClass nextE.attrs)),
                   trace := s.trace ++ [Event.applyOptions h] }
        match alookup s₁.components id with
        | none => .err (.unknownNode id) s₁
        | some comp =>
          let next := normalizeChildren nextE.childrenProp
          match updateChildren fuel id 0 comp.renderedChildren next s₁ with
          | .err er s₂ => .err er s₂
          | .ok _ s₂ =>
            let comp' : CompState := { comp with renderedChildren := next }
            let s₃ : RState := { s₂ with components := aset s₂.components id comp' }
            .ok () { s₃ with trace := s₃.trace ++ [Event.redrawRequest],
                             renderScheduled := true }

/-- The multi-child collaborator's per-slot diffing (unkeyed children use their
index as key): matching slots with the same element type update in place, a
changed type unmounts then remounts, a missing new slot unmounts, a fresh new
slot mounts. -/
def updateChildren : Nat → NodeId → Nat → List VElement → List VElement → RState → MRes Unit
  | 0, _, _, _, _, s => .err .outOfFuel s
  | _ + 1, _, _, [], [], s => .ok () s
  | fuel + 1, id, i, _ :: ps, [], s =>
    match unmountComponent fuel (id ++ [i]) s with
    | .err er s₁ => .err er s₁
    | .ok _ s₁ => updateChildren fuel id (i + 1) ps [] s₁
  | fuel + 1, id, i, [], n :: ns, s =>
    match mountComponent fuel (id ++ [i]) n s with
    | .err er s₁ => .err er s₁
    | .ok _ s₁ => updateChildren fuel id (i + 1) [] ns s₁
  | fuel + 1, id, i, p :: ps, n :: ns, s =>
    if p.type = n.type then
      match receiveComponent fuel (id ++ [i]) n p s with
      | .err er s₁ => .err er s₁
      | .ok _ s₁ => updateChildren fuel id (i + 1) ps ns s₁
    else
      match unmountComponent fuel (id ++ [i]) s with
      | .err er s₁ => .err er s₁
      | .ok _ s₁ =>
        match mountComponent fuel (id ++ [i]) n s₁ with
        | .err er s₂ => .err er s₂
        | .ok _ s₂ => updateChildren fuel id (i + 1) ps ns s₂

end

/-- A sequence of updates delivered to one node: each entry is the pair
(next element, previous element) of one `receiveComponent` call. -/
def runUpdates : Nat → NodeId → List (VElement × VElement) → RState → MRes Unit
  | _, _, [], s => .ok () s
  | fuel, id, (n, p) :: rest, s =>
    match receiveComponent fuel id n p s with
    | .err er s₁ => .err er s₁
    | .ok _ s₁ => runUpdates fuel id rest s₁

/-- Firing a widget event: the mount-time `onAny` dispatcher reads the component
instance's `_currentElement` at dispatch time, looks up the prop named
`'on' + startCase(type)` on its props, and invokes it with the event's arguments
if it is a function; otherwise the event is silently ignored (result `none`). -/
def dispatchEvent (s : RState) (h : Nat) (eventName : String) (args : List Nat) :
    Option (Nat × List Nat) :=
  match alookup s.widgets h with
  | none => none
  | some w =>
    match w.dispatcher with
    | none => none
    | some cid =>
      match alookup s.components cid with
      | none => none
      | some comp =>
        match alookup comp.currentElement.attrs (handlerKey eventName) with
        | some (PVal.func f) => some (f, args)
        | _ => none

/-- The blessed screen's render tick: if a debounced render was requested,
perform exactly one actual render and clear the flag. -/
def tick (s : RState) : RState :=
  if s.renderScheduled then
    { s with trace := s.trace ++ [Event.render], renderScheduled := false }
  else s

/-- Number of debounced-render requests in a trace. -/
def countRedraw : List Event → Nat
  | [] => 0
  | Event.redrawRequest :: es => countRedraw es + 1
  | _ :: es => countRedraw es

/-- Number of actual renders in a trace. -/
def countRender : List Event → Nat
  | [] => 0
  | Event.render :: es => countRender es + 1
  | _ :: es => countRender es

/-- Number of `createWidget` calls in a trace: the source performs exactly one
per `mountComponent` operation, so this counts the mount operations of a pass. -/
def countCreate : List Event → Nat
  | [] => 0
  | Event.createWidget _ _ :: es => countCreate es + 1
  | _ :: es => countCreate es

/-- Number of `applyOptions` calls in a trace: the source performs exactly one
per `receiveComponent` operation, so this counts the update operations of a
pass. -/
def countApply : List Event → Nat
  | [] => 0
  | Event.applyOptions _ :: es => countApply es + 1
  | _ :: es => countApply es

/-- The root display surface: the blessed screen, widget handle 0. -/
def screenWidget : Widget :=
  { kind := "screen", options := [], children := [], dispatcher := none }

/-- Startup state: only the screen exists; registry and trace empty. -/
def initState : RState :=
  { widgets := [(0, screenWidget)], nextHandle := 1, registry := [],
    components := [], trace := [], renderScheduled := false }

/-- All live handles (widget arena keys and registry values) are below the
allocation counter. -/
def handlesBounded (s : RState) : Bool :=
  s.widgets.all (fun kw => kw.1 < s.nextHandle) &&
    s.registry.all (fun ih => ih.2 < s.nextHandle)

/-- React's `CallbackQueue` (external collaborator): the ordered list of
callbacks enqueued during a pass, each denoted by a numeric tag. -/
structure CallbackQueue where
  callbacks : List Nat
deriving DecidableEq, Repr

/-- The `PooledClass` instance pool backing `CallbackQueue.getPooled`/`release`. -/
structure QueuePool where
  pool : List CallbackQueue
deriving DecidableEq, Repr

/-- External contract of `CallbackQueue.getPooled`: reuse a pooled instance if
one exists — its constructor is re-run, so its callback list is empty — or
allocate a fresh empty queue. -/
def getPooled (p : QueuePool) : CallbackQueue × QueuePool :=
  match p.pool with
  | [] => (⟨[]⟩, ⟨[]⟩)
  | q :: qs => ({ q with callbacks := [] }, ⟨qs⟩)

/-- External contract of `CallbackQueue.release`: run the instance's destructor,
which clears its callback list, and push it back onto the pool. -/
def releaseQueue (p : QueuePool) (q : CallbackQueue) : QueuePool :=
  ⟨{ q with callbacks := [] } :: p.pool⟩

/-- The pass-scoped reconcile transaction: `reactMountReady` holds the pass's
callback queue, and is `null` once the pass is destroyed. -/
structure ReactBlessedReconcileTransaction where
  reactMountReady : Option CallbackQueue
deriving DecidableEq, Repr

/-- The transaction constructor (source): `this.reinitializeTransaction();
this.reactMountReady = CallbackQueue.getPooled(null);`. -/
def ReactBlessedReconcileTransaction.construct (p : QueuePool) :
    ReactBlessedReconcileTransaction × QueuePool :=
  let qp := getPooled p
  (⟨some qp.1⟩, qp.2)

/-- `getReactMountReady` from the transaction's mixin. -/
def getReactMountReady (t : ReactBlessedReconcileTransaction) : Option CallbackQueue :=
  t.reactMountReady

/-- Enqueue one completion callback on the pass's queue (React `CallbackQueue`
contract; a destroyed pass has no queue and the enqueue is lost). -/
def enqueueCallback (t : ReactBlessedReconcileTransaction) (cb : Nat) :
    ReactBlessedReconcileTransaction :=
  ⟨t.reactMountReady.map (fun q => ⟨q.callbacks ++ [cb]⟩)⟩

/-- Enqueue a whole list of callbacks in order. -/
def enqueueAll (t : ReactBlessedReconcileTransaction) (cbs : List Nat) :
    ReactBlessedReconcileTransaction :=
  cbs.foldl enqueueCallback t

/-- The transaction `destructor` (source): `CallbackQueue.release(this.reactMountReady);
this.reactMountReady = null;`. -/
def ReactBlessedReconcileTransaction.destructor
    (t : ReactBlessedReconcileTransaction) (p : QueuePool) :
    ReactBlessedReconcileTransaction × QueuePool :=
  match t.reactMountReady with
  | some q => (⟨none⟩, releaseQueue p q)
  | none => (⟨none⟩, p)

/-- The per-component observation of an instance: the parts of its stored state
the embedded code ever reads again (element type, element attrs, rendered
children) — everything except the unread `children` field of the stored
current element. -/
def compObs (c : CompState) : String × List (String × PVal) × List VElement :=
  (c.currentElement.type, c.currentElement.attrs, c.renderedChildren)

/-- Observational equality of reconciliation states: equal widget trees,
allocation counters, registries, traces and render flags, and componentwise
observationally equal instances. -/
def obsEq (s₁ s₂ : RState) : Prop :=
  s₁.widgets = s₂.widgets ∧ s₁.nextHandle = s₂.nextHandle ∧
  s₁.registry = s₂.registry ∧ s₁.trace = s₂.trace ∧
  s₁.renderScheduled = s₂.renderScheduled ∧
  s₁.components.map (fun kc => (kc.1, compObs kc.2)) =
    s₂.components.map (fun kc => (kc.1, compObs kc.2))

/-- Observational equality of operation outcomes. -/
def obsEqR : MRes Unit → MRes Unit → Prop
  | .ok _ s₁, .ok _ s₂ => obsEq s₁ s₂
  | .err e₁ s₁, .err e₂ s₂ => e₁ = e₂ ∧ obsEq s₁ s₂
  | _, _ => False

/-- Demo element: a box with `width: 10` and an `onPress` handler (function 1). -/
def demoBox10 : VElement := .mk "box" [("width", .num 10), ("onPress", .func 1)] .absent

/-- Demo element: the same box updated to `width: 20` and a different `onPress`
handler (function 2). -/
def demoBox20 : VElement := .mk "box" [("width", .num 20), ("onPress", .func 2)] .absent

/-- Demo element: a box with one text child (a two-node tree). -/
def demoPair : VElement := .mk "box" [] (.list [.mk "text" [] .absent])

/-- Demo element: a box with two children (a three-node tree). -/
def demoTree : VElement :=
  .mk "box" [] (.list [.mk "text" [] .absent, .mk "list" [] .absent])

/-- Demo element with an unknown widget type. -/
def demoUnknown : VElement := .mk "nosuchwidget" [("width", .num 1)] .absent

/-- State after mounting the demo box at the root. -/
def demoMounted : RState := (mountComponent 10 [0] demoBox10 initState).state

/-- State after then updating the demo box to its second version. -/
def demoUpdated : RState :=
  (receiveComponent 10 [0] demoBox20 demoBox10 demoMounted).state

/-- State after mounting the two-node demo tree at the root. -/
def demoPairMounted : RState := (mountComponent 10 [0] demoPair initState).state

/-- State after unmounting the mounted demo box. -/
def demoUnmounted : RState := (unmountComponent 10 [0] demoMounted).state

theorem alookup_aset_self {α β : Type} [DecidableEq α] (m : List (α × β)) (a : α) (b : β) :
    alookup (aset m a b) a = some b := by
  induction m with
  | nil => simp [aset, alookup]
  | cons kv rest ih =>
    obtain ⟨k, v⟩ := kv
    by_cases h : k = a
    · simp [aset, h, alookup]
    · simp [aset, h, alookup, ih]

theorem alookup_aset_ne {α β : Type} [DecidableEq α] (m : List (α × β)) (a a' : α) (b : β)
    (h : a ≠ a') : alookup (aset m a b) a' = alookup m a' := by
  induction m with
  | nil => simp [aset, alookup, h]
  | cons kv rest ih =>
    obtain ⟨k, v⟩ := kv
    by_cases hk : k = a
    · subst hk
      simp [aset, alookup, h, ih]
    · by_cases hk' : k = a'
      · subst hk'
        simp [aset, alookup, Ne.symm h]
      · simp [aset, alookup, hk, hk', ih]

theorem alookup_adrop_self {α β : Type} [DecidableEq α] (m : List (α × β)) (a : α) :
    alookup (adrop m a) a = none := by
  induction m with
  | nil => simp [adrop, alookup]
  | cons kv rest ih =>
    obtain ⟨k, v⟩ := kv
    by_cases h : k = a
    · simp [adrop, h, ih]
    · simp [adrop, alookup, h, ih]

theorem alookup_adrop_ne {α β : Type} [DecidableEq α] (m : List (α × β)) (a a' : α)
    (h : a ≠ a') : alookup (adrop m a) a' = alookup m a' := by
  induction m with
  | nil => simp [adrop, alookup]
  | cons kv rest ih =>
    obtain ⟨k, v⟩ := kv
    by_cases hk : k = a
    · subst hk
      simp [adrop, alookup, h, ih]
    · simp [adrop, alookup, hk, ih]

theorem alookup_mem {α β : Type} [DecidableEq α] {m : List (α × β)} {a : α} {b : β}
    (h : alookup m a = some b) : (a, b) ∈ m := by
  induction m with
  | nil => simp [alookup] at h
  | cons kv rest ih =>
    obtain ⟨k, v⟩ := kv
    by_cases hk : k = a
    · subst hk
      simp [alookup] at h
      simp [h]
    · simp [alookup, hk] at h
      exact List.mem_cons_of_mem _ (ih h)

theorem all_aset {α β : Type} [DecidableEq α] {p : α × β → Bool} {m : List (α × β)}
    {a : α} {b : β} (hm : m.all p = true) (hb : p (a, b) = true) :
    (aset m a b).all p = true := by
  induction m with
  | nil => simp [aset, hb]
  | cons kv rest ih =>
    obtain ⟨k, v⟩ := kv
    simp only [List.all_cons, Bool.and_eq_true] at hm
    by_cases h : k = a
    · simp [aset, h, List.all_cons, hb, hm.2]
    · simp [aset, h, List.all_cons, hm.1, ih hm.2]

theorem countRedraw_append (a b : List Event) :
    countRedraw (a ++ b) = countRedraw a + countRedraw b := by
  induction a with
  | nil => simp [countRedraw]
  | cons e rest ih =>
    cases e <;> (simp [countRedraw, ih]; try omega)

theorem countRender_append (a b : List Event) :
    countRender (a ++ b) = countRender a + countRender b := by
  induction a with
  | nil => simp [countRender]
  | cons e rest ih =>
    cases e <;> (simp [countRender, ih]; try omega)

theorem countCreate_append (a b : List Event) :
    countCreate (a ++ b) = countCreate a + countCreate b := by
  induction a with
  | nil => simp [countCreate]
  | cons e rest ih =>
    cases e <;> (simp [countCreate, ih]; try omega)

theorem countApply_append (a b : List Event) :
    countApply (a ++ b) = countApply a + countApply b := by
  induction a with
  | nil => simp [countApply]
  | cons e rest ih =>
    cases e <;> (simp [countApply, ih]; try omega)

theorem leads_refl (a : NodeId) : leads a a = true := by
  induction a with
  | nil => rfl
  | cons x xs ih => simp [leads, ih]

theorem leads_app (a b : NodeId) : leads a (a ++ b) = true := by
  induction a with
  | nil => rfl
  | cons x xs ih => simp [leads, ih]

theorem leads_trans {a b c : NodeId} (h₁ : leads a b = true) (h₂ : leads b c = true) :
    leads a c = true := by
  induction a generalizing b c with
  | nil => rfl
  | cons x xs ih =>
    cases b with
    | nil => simp [leads] at h₁
    | cons y ys =>
      cases c with
      | nil => simp [leads] at h₂
      | cons z zs =>
        simp [leads] at h₁ h₂ ⊢
        exact ⟨h₁.1.trans h₂.1, ih h₁.2 h₂.2⟩

theorem leads_length {a b : NodeId} (h : leads a b = true) : a.length ≤ b.length := by
  induction a generalizing b with
  | nil => simp
  | cons x xs ih =>
    cases b with
    | nil => simp [leads] at h
    | cons y ys =>
      simp [leads] at h
      simpa using ih h.2

theorem leads_eq_of_length {a b : NodeId} (h : leads a b = true)
    (hl : b.length ≤ a.length) : a = b := by
  induction a generalizing b with
  | nil =>
    cases b with
    | nil => rfl
    | cons y ys => simp at hl
  | cons x xs ih =>
    cases b with
    | nil => simp [leads] at h
    | cons y ys =>
      simp [leads] at h
      simp at hl
      simp [h.1, ih h.2 hl]

theorem leads_appendOne_self (a : NodeId) (i : Nat) : leads (a ++ [i]) a = false := by
  by_cases h : leads (a ++ [i]) a = true
  · have := leads_length h
    simp at this
  · simpa using h

theorem leads_appendOne_inj {a : NodeId} {i j : Nat}
    (h : leads (a ++ [i]) (a ++ [j]) = true) : i = j := by
  have hl : (a ++ [j]).length ≤ (a ++ [i]).length := by simp
  have := leads_eq_of_length h hl
  simpa using this

theorem leads_extend_false {id k : NodeId} (j : Nat) (h : leads id k = false) :
    leads (id ++ [j]) k = false := by
  by_cases h' : leads (id ++ [j]) k = true
  · have := leads_trans (leads_app id [j]) h'
    rw [this] at h
    cases h
  · simpa using h'

theorem dropLast_appendOne (l : List Nat) (a : Nat) : (l ++ [a]).dropLast = l := by
  simp

theorem getParent_registry_eq {s₁ s₂ : RState} (id : NodeId)
    (h : s₁.registry = s₂.registry) : getParent id s₁ = getParent id s₂ := by
  unfold getParent
  rw [h]

theorem getParent_appendOne (id : NodeId) (j : Nat) (hne : id ≠ []) (s : RState) :
    getParent (id ++ [j]) s =
      (match alookup s.registry id with
       | some h => .ok h
       | none => .error (.unknownNode id)) := by
  unfold getParent
  rw [dropLast_appendOne]
  cases id with
  | nil => exact absurd rfl hne
  | cons x xs => rfl

theorem leads_false_of_length {a b : NodeId} (h : b.length < a.length) :
    leads a b = false := by
  by_cases hl : leads a b = true
  · exact absurd (leads_length hl) (by omega)
  · simpa using hl

theorem unmountLocal : ∀ fuel : Nat,
    (∀ id s s', unmountComponent fuel id s = .ok () s' →
      (∀ k, leads id k = false → alookup s'.registry k = alookup s.registry k) ∧
      (∃ t, s'.trace = s.trace ++ t ∧ countRedraw t = 0) ∧
      s'.renderScheduled = s.renderScheduled) ∧
    (∀ id i cs s s', unmountChildren fuel id i cs s = .ok () s' →
      (∀ k, (∀ j, i ≤ j → leads (id ++ [j]) k = false) →
        alookup s'.registry k = alookup s.registry k) ∧
      (∃ t, s'.trace = s.trace ++ t ∧ countRedraw t = 0) ∧
      s'.renderScheduled = s.renderScheduled) := by
  intro fuel
  induction fuel with
  | zero =>
    constructor
    · intro id s s' h
      simp [unmountComponent] at h
    · intro id i cs s s' h
      simp [unmountChildren] at h
  | succ n ih =>
    obtain ⟨ihC, ihK⟩ := ih
    constructor
    · intro id s s' h
      simp only [unmountComponent] at h
      split at h
      · exact absurd h (by simp)
      · rename_i comp hcomp
        split at h
        · exact absurd h (by simp)
        · rename_i s₁ hkids
          split at h
          · exact absurd h (by simp)
          · rename_i p hpar
            split at h
            · exact absurd h (by simp)
            · rename_i hdl hreg
              split at h
              · rename_i w pw hw hpw
                simp only [MRes.ok.injEq, true_and] at h
                subst h
                obtain ⟨hkreg, ⟨t, ht, hcnt⟩, hsched⟩ := ihK id 0 comp.renderedChildren s s₁ hkids
                refine ⟨?_, ⟨t ++ [Event.offAllEvents hdl, Event.detach p hdl], ?_, ?_⟩, ?_⟩
                · intro k hk
                  have hkid : k ≠ id := by
                    intro he
                    subst he
                    rw [leads_refl] at hk
                    cases hk
                  have h1 : alookup s₁.registry k = alookup s.registry k := by
                    refine hkreg k ?_
                    intro j _
                    exact leads_extend_false j hk
                  show alookup (adrop s₁.registry id) k = alookup s.registry k
                  rw [alookup_adrop_ne _ _ _ (fun he => hkid he.symm), h1]
                · show s₁.trace ++ [Event.offAllEvents hdl] ++ [Event.detach p hdl] =
                    s.trace ++ (t ++ [Event.offAllEvents hdl, Event.detach p hdl])
                  rw [ht]
                  simp
                · rw [countRedraw_append, hcnt]
                  rfl
                · exact hsched
              · exact absurd h (by simp)
    · intro id i cs s s' h
      match cs with
      | [] =>
        simp only [unmountChildren, MRes.ok.injEq, true_and] at h
        subst h
        exact ⟨fun k _ => rfl, ⟨[], by simp, rfl⟩, rfl⟩
      | c :: rest =>
        simp only [unmountChildren] at h
        split at h
        · exact absurd h (by simp)
        · rename_i s₁ hc
          obtain ⟨hreg₁, ⟨t₁, ht₁, hc₁⟩, hs₁⟩ := ihC (id ++ [i]) s s₁ hc
          obtain ⟨hreg₂, ⟨t₂, ht₂, hc₂⟩, hs₂⟩ := ihK id (i + 1) rest s₁ s' h
          refine ⟨?_, ⟨t₁ ++ t₂, ?_, ?_⟩, hs₂.trans hs₁⟩
          · intro k hk
            have h1 : alookup s₁.registry k = alookup s.registry k :=
              hreg₁ k (hk i (Nat.le_refl i))
            have h2 : alookup s'.registry k = alookup s₁.registry k := by
              refine hreg₂ k ?_
              intro j hj
              exact hk j (Nat.le_of_succ_le hj)
            rw [h2, h1]
          · rw [ht₂, ht₁, List.append_assoc]
          · rw [countRedraw_append, hc₁, hc₂]

theorem mountNode_ok {selfId : NodeId} {parent : Nat} {e : VElement} {s : RState}
    {h : Nat} {s' : RState} (hm : mountNode selfId parent e s = .ok h s') :
    s'.registry = s.registry ∧ s'.components = s.components ∧
    ∃ t, s'.trace = s.trace ++ t ∧ countRedraw t = 0 := by
  unfold mountNode at hm
  split at hm
  · simp only [] at hm
    split at hm
    · exact absurd hm (by simp)
    · rename_i pw hpw
      simp only [MRes.ok.injEq] at hm
      obtain ⟨-, hm⟩ := hm
      subst hm
      exact ⟨rfl, rfl, [Event.createWidget e.type s.nextHandle,
        Event.onAnyEvent s.nextHandle, Event.attach parent s.nextHandle], by simp, rfl⟩
  · exact absurd hm (by simp)

theorem mountLocal : ∀ fuel : Nat,
    (∀ id e s s', mountComponent fuel id e s = .ok () s' →
      (∀ k, leads id k = false →
        alookup s'.registry k = alookup s.registry k ∧
        alookup s'.components k = alookup s.components k) ∧
      (∃ t, s'.trace = s.trace ++ t)) ∧
    (∀ id i cs s s', mountChildren fuel id i cs s = .ok () s' →
      (∀ k, (∀ j, i ≤ j → leads (id ++ [j]) k = false) →
        alookup s'.registry k = alookup s.registry k ∧
        alookup s'.components k = alookup s.components k) ∧
      (∃ t, s'.trace = s.trace ++ t)) := by
  intro fuel
  induction fuel with
  | zero =>
    constructor
    · intro id e s s' h
      simp [mountComponent] at h
    · intro id i cs s s' h
      simp [mountChildren] at h
  | succ n ih =>
    obtain ⟨ihC, ihK⟩ := ih
    constructor
    · intro id e s s' h
      simp only [mountComponent] at h
      split at h
      · exact absurd h (by simp)
      · rename_i p hpar
        split at h
        · exact absurd h (by simp)
        · rename_i hdl s₁ hnode
          split at h
          · exact absurd h (by simp)
          · rename_i s₂ hkids
            simp only [MRes.ok.injEq, true_and] at h
            subst h
            obtain ⟨hreg₁, hcomp₁, t₁, ht₁, -⟩ := mountNode_ok hnode
            obtain ⟨hloc₂, t₂, ht₂⟩ := ihK id 0 (normalizeChildren e.childrenProp)
              _ s₂ hkids
            refine ⟨?_, ?_⟩
            · intro k hk
              have hkid : k ≠ id := by
                intro he
                subst he
                rw [leads_refl] at hk
                cases hk
              have hsub : ∀ j, 0 ≤ j → leads (id ++ [j]) k = false := by
                intro j _
                exact leads_extend_false j hk
              obtain ⟨hr₂, hc₂⟩ := hloc₂ k hsub
              constructor
              · rw [hr₂]
                show alookup (aset s₁.registry id hdl) k = alookup s.registry k
                rw [alookup_aset_ne _ _ _ _ (fun he => hkid he.symm), hreg₁]
              · rw [hc₂, hcomp₁]
                show alookup (aset s.components id _) k = alookup s.components k
                rw [alookup_aset_ne _ _ _ _ (fun he => hkid he.symm)]
            · refine ⟨t₁ ++ t₂ ++ [Event.redrawRequest], ?_⟩
              show s₂.trace ++ [Event.redrawRequest] = _
              rw [ht₂]
              show s₁.trace ++ t₂ ++ [Event.redrawRequest] = _
              rw [ht₁]
              simp
    · intro id i cs s s' h
      match cs with
      | [] =>
        simp only [mountChildren, MRes.ok.injEq, true_and] at h
        subst h
        exact ⟨fun k _ => ⟨rfl, rfl⟩, ⟨[], by simp⟩⟩
      | c :: rest =>
        simp only [mountChildren] at h
        split at h
        · exact absurd h (by simp)
        · rename_i s₁ hc
          obtain ⟨hloc₁, t₁, ht₁⟩ := ihC (id ++ [i]) c s s₁ hc
          obtain ⟨hloc₂, t₂, ht₂⟩ := ihK id (i + 1) rest s₁ s' h
          refine ⟨?_, ⟨t₁ ++ t₂, ?_⟩⟩
          · intro k hk
            obtain ⟨hr₁, hc₁⟩ := hloc₁ k (hk i (Nat.le_refl i))
            obtain ⟨hr₂, hc₂⟩ := hloc₂ k (fun j hj => hk j (Nat.le_of_succ_le hj))
            exact ⟨hr₂.trans hr₁, hc₂.trans hc₁⟩
          · rw [ht₂, ht₁, List.append_assoc]

theorem receiveLocal : ∀ fuel : Nat,
    (∀ id nx pv s s', receiveComponent fuel id nx pv s = .ok () s' →
      (∀ k, (∀ j, leads (id ++ [j]) k = false) →
        alookup s'.registry k = alookup s.registry k) ∧
      (∃ t, s'.trace = s.trace ++ t)) ∧
    (∀ id i ps ns s s', updateChildren fuel id i ps ns s = .ok () s' →
      (∀ k, (∀ j, i ≤ j → leads (id ++ [j]) k = false) →
        alookup s'.registry k = alookup s.registry k) ∧
      (∃ t, s'.trace = s.trace ++ t)) := by
  intro fuel
  induction fuel with
  | zero =>
    constructor
    · intro id nx pv s s' h
      simp [receiveComponent] at h
    · intro id i ps ns s s' h
      simp [updateChildren] at h
  | succ n ih =>
    obtain ⟨ihC, ihK⟩ := ih
    constructor
    · intro id nx pv s s' h
      simp only [receiveComponent] at h
      split at h
      · exact absurd h (by simp)
      · rename_i hdl hreg
        split at h
        · exact absurd h (by simp)
        · rename_i w hw
          split at h
          · exact absurd h (by simp)
          · rename_i comp hcomp
            split at h
            · exact absurd h (by simp)
            · rename_i s₂ hkids
              simp only [MRes.ok.injEq, true_and] at h
              subst h
              obtain ⟨hloc₂, t₂, ht₂⟩ := ihK id 0 comp.renderedChildren
                (normalizeChildren nx.childrenProp) _ s₂ hkids
              constructor
              · intro k hk
                have h₂ : alookup s₂.registry k = alookup s.registry k :=
                  hloc₂ k (fun j _ => hk j)
                exact h₂
              · refine ⟨Event.applyOptions hdl :: (t₂ ++ [Event.redrawRequest]), ?_⟩
                show s₂.trace ++ [Event.redrawRequest] = _
                rw [ht₂]
                show s.trace ++ [Event.applyOptions hdl] ++ t₂ ++ [Event.redrawRequest] = _
                simp
    · intro id i ps ns s s' h
      match ps, ns with
      | [], [] =>
        simp only [updateChildren, MRes.ok.injEq, true_and] at h
        subst h
        exact ⟨fun k _ => rfl, ⟨[], by simp⟩⟩
      | p :: ps', [] =>
        simp only [updateChildren] at h
        split at h
        · exact absurd h (by simp)
        · rename_i s₁ hu
          obtain ⟨hr₁, ⟨t₁, ht₁, -⟩, -⟩ := (unmountLocal n).1 (id ++ [i]) s s₁ hu
          obtain ⟨hloc₂, t₂, ht₂⟩ := ihK id (i + 1) ps' [] s₁ s' h
          refine ⟨?_, ⟨t₁ ++ t₂, ?_⟩⟩
          · intro k hk
            have h₁ : alookup s₁.registry k = alookup s.registry k :=
              hr₁ k (hk i (Nat.le_refl i))
            have h₂ : alookup s'.registry k = alookup s₁.registry k :=
              hloc₂ k (fun j hj => hk j (Nat.le_of_succ_le hj))
            exact h₂.trans h₁
          · rw [ht₂, ht₁, List.append_assoc]
      | [], nx :: ns' =>
        simp only [updateChildren] at h
        split at h
        · exact absurd h (by simp)
        · rename_i s₁ hm
          obtain ⟨hloc₁, t₁, ht₁⟩ := (mountLocal n).1 (id ++ [i]) nx s s₁ hm
          obtain ⟨hloc₂, t₂, ht₂⟩ := ihK id (i + 1) [] ns' s₁ s' h
          refine ⟨?_, ⟨t₁ ++ t₂, ?_⟩⟩
          · intro k hk
            have h₁ : alookup s₁.registry k = alookup s.registry k :=
              (hloc₁ k (hk i (Nat.le_refl i))).1
            have h₂ : alookup s'.registry k = alookup s₁.registry k :=
              hloc₂ k (fun j hj => hk j (Nat.le_of_succ_le hj))
            exact h₂.trans h₁
          · rw [ht₂, ht₁, List.append_assoc]
      | p :: ps', nx :: ns' =>
        simp only [updateChildren] at h
        split at h
        · split at h
          · exact absurd h (by simp)
          · rename_i s₁ hr
            obtain ⟨hloc₁, t₁, ht₁⟩ := ihC (id ++ [i]) nx p s s₁ hr
            obtain ⟨hloc₂, t₂, ht₂⟩ := ihK id (i + 1) ps' ns' s₁ s' h
            refine ⟨?_, ⟨t₁ ++ t₂, ?_⟩⟩
            · intro k hk
              have h₁ : alookup s₁.registry k = alookup s.registry k := by
                refine hloc₁ k ?_
                intro j
                exact leads_extend_false j (hk i (Nat.le_refl i))
              have h₂ : alookup s'.registry k = alookup s₁.registry k :=
                hloc₂ k (fun j hj => hk j (Nat.le_of_succ_le hj))
              exact h₂.trans h₁
            · rw [ht₂, ht₁, List.append_assoc]
        · split at h
          · exact absurd h (by simp)
          · rename_i s₁ hu
            split at h
            · exact absurd h (by simp)
            · rename_i s₂ hm
              obtain ⟨hr₁, ⟨t₁, ht₁, -⟩, -⟩ := (unmountLocal n).1 (id ++ [i]) s s₁ hu
              obtain ⟨hloc₂, t₂, ht₂⟩ := (mountLocal n).1 (id ++ [i]) nx s₁ s₂ hm
              obtain ⟨hloc₃, t₃, ht₃⟩ := ihK id (i + 1) ps' ns' s₂ s' h
              refine ⟨?_, ⟨t₁ ++ (t₂ ++ t₃), ?_⟩⟩
              · intro k hk
                have h₁ : alookup s₁.registry k = alookup s.registry k :=
                  hr₁ k (hk i (Nat.le_refl i))
                have h₂ : alookup s₂.registry k = alookup s₁.registry k :=
                  (hloc₂ k (hk i (Nat.le_refl i))).1
                have h₃ : alookup s'.registry k = alookup s₂.registry k :=
                  hloc₃ k (fun j hj => hk j (Nat.le_of_succ_le hj))
                exact (h₃.trans h₂).trans h₁
              · rw [ht₃, ht₂, ht₁]
                simp

theorem listSize_normalize (c : Children) :
    listSize (normalizeChildren c) = childrenSize c := by
  cases c with
  | absent => rfl
  | single e => simp [normalizeChildren, listSize, childrenSize]
  | list es => rfl

theorem mountCount : ∀ fuel : Nat,
    (∀ id e s s', mountComponent fuel id e s = .ok () s' →
      countRedraw s'.trace = countRedraw s.trace + treeSize e) ∧
    (∀ id i cs s s', mountChildren fuel id i cs s = .ok () s' →
      countRedraw s'.trace = countRedraw s.trace + listSize cs) := by
  intro fuel
  induction fuel with
  | zero =>
    constructor
    · intro id e s s' h
      simp [mountComponent] at h
    · intro id i cs s s' h
      simp [mountChildren] at h
  | succ n ih =>
    obtain ⟨ihC, ihK⟩ := ih
    constructor
    · intro id e s s' h
      simp only [mountComponent] at h
      split at h
      · exact absurd h (by simp)
      · rename_i p hpar
        split at h
        · exact absurd h (by simp)
        · rename_i hdl s₁ hnode
          split at h
          · exact absurd h (by simp)
          · rename_i s₂ hkids
            simp only [MRes.ok.injEq, true_and] at h
            subst h
            obtain ⟨-, -, t₁, ht₁, hcnt₁⟩ := mountNode_ok hnode
            have h₂ := ihK id 0 (normalizeChildren e.childrenProp) _ s₂ hkids
            show countRedraw (s₂.trace ++ [Event.redrawRequest]) = _
            rw [countRedraw_append, h₂]
            show countRedraw s₁.trace + listSize (normalizeChildren e.childrenProp) +
              countRedraw [Event.redrawRequest] = _
            rw [ht₁, countRedraw_append, hcnt₁, listSize_normalize]
            show countRedraw s.trace + 0 + childrenSize e.childrenProp + 1 = _
            cases e with
            | mk t a c =>
              show _ = countRedraw s.trace + treeSize (.mk t a c)
              simp [treeSize, VElement.childrenProp]
              omega
    · intro id i cs s s' h
      match cs with
      | [] =>
        simp only [mountChildren, MRes.ok.injEq, true_and] at h
        subst h
        simp [listSize]
      | c :: rest =>
        simp only [mountChildren] at h
        split at h
        · exact absurd h (by simp)
        · rename_i s₁ hc
          have h₁ := ihC (id ++ [i]) c s s₁ hc
          have h₂ := ihK id (i + 1) rest s₁ s' h
          rw [h₂, h₁]
          simp [listSize]
          omega

theorem mountNode_spec {selfId : NodeId} {parent : Nat} {e : VElement} {s : RState}
    {hdl : Nat} {s' : RState} (hm : mountNode selfId parent e s = .ok hdl s') :
    hdl = s.nextHandle ∧
    blessedTypes.contains e.type = true ∧
    s'.nextHandle = s.nextHandle + 1 ∧
    s'.registry = s.registry ∧
    s'.components = s.components ∧
    s'.renderScheduled = s.renderScheduled ∧
    s'.trace = s.trace ++ [Event.createWidget e.type s.nextHandle,
      Event.onAnyEvent s.nextHandle, Event.attach parent s.nextHandle] ∧
    ∃ pw,
      alookup (aset s.widgets s.nextHandle
        ⟨e.type, solveClass e.attrs, [], some selfId⟩) parent = some pw ∧
      s'.widgets = aset (aset s.widgets s.nextHandle
        ⟨e.type, solveClass e.attrs, [], some selfId⟩) parent
        { pw with children := pw.children ++ [s.nextHandle] } := by
  unfold mountNode at hm
  split at hm
  · rename_i hknown
    simp only [] at hm
    split at hm
    · exact absurd hm (by simp)
    · rename_i pw hpw
      simp only [MRes.ok.injEq] at hm
      obtain ⟨h1, h2⟩ := hm
      subst h2
      exact ⟨h1.symm, hknown, rfl, rfl, rfl, rfl, by simp, pw, hpw, rfl⟩
  · exact absurd hm (by simp)

theorem all_fst_lt_mono {m : List (Nat × Widget)} {n n' : Nat}
    (h : m.all (fun kw => kw.1 < n) = true) (hle : n ≤ n') :
    m.all (fun kw => kw.1 < n') = true := by
  simp only [List.all_eq_true, decide_eq_true_eq] at h ⊢
  intro x hx
  exact lt_of_lt_of_le (h x hx) hle

theorem all_snd_lt_mono {m : List (NodeId × Nat)} {n n' : Nat}
    (h : m.all (fun ih => ih.2 < n) = true) (hle : n ≤ n') :
    m.all (fun ih => ih.2 < n') = true := by
  simp only [List.all_eq_true, decide_eq_true_eq] at h ⊢
  intro x hx
  exact lt_of_lt_of_le (h x hx) hle

theorem bounded_widget_key {s : RState} (hb : handlesBounded s = true) {k : Nat}
    {w : Widget} (h : alookup s.widgets k = some w) : k < s.nextHandle := by
  unfold handlesBounded at hb
  rw [Bool.and_eq_true] at hb
  have := List.all_eq_true.mp hb.1 _ (alookup_mem h)
  simpa using this

theorem bounded_registry_val {s : RState} (hb : handlesBounded s = true) {i : NodeId}
    {hdl : Nat} (h : alookup s.registry i = some hdl) : hdl < s.nextHandle := by
  unfold handlesBounded at hb
  rw [Bool.and_eq_true] at hb
  have := List.all_eq_true.mp hb.2 _ (alookup_mem h)
  simpa using this

theorem mountStruct : ∀ fuel : Nat,
    (∀ id e s s', id ≠ [] → 0 < s.nextHandle → handlesBounded s = true →
      mountComponent fuel id e s = .ok () s' →
      handlesBounded s' = true ∧
      s.nextHandle < s'.nextHandle ∧
      alookup s'.registry id = some s.nextHandle ∧
      alookup s'.components id = some ⟨e, normalizeChildren e.childrenProp⟩ ∧
      ∃ p pw,
        getParent id s = .ok p ∧ p < s.nextHandle ∧
        alookup s.widgets p = some pw ∧
        alookup s'.widgets p =
          some { pw with children := pw.children ++ [s.nextHandle] } ∧
        (∀ wh, wh < s.nextHandle → wh ≠ p →
          alookup s'.widgets wh = alookup s.widgets wh) ∧
        ∃ hs,
          alookup s'.widgets s.nextHandle = some
            { kind := e.type, options := solveClass e.attrs, children := hs,
              dispatcher := some id } ∧
          hs.length = (normalizeChildren e.childrenProp).length ∧
          (∀ j, j < hs.length → alookup s'.registry (id ++ [j]) = hs[j]?)) ∧
    (∀ id i cs s s' h w, id ≠ [] → 0 < s.nextHandle → handlesBounded s = true →
      alookup s.registry id = some h →
      alookup s.widgets h = some w →
      mountChildren fuel id i cs s = .ok () s' →
      handlesBounded s' = true ∧
      s.nextHandle ≤ s'.nextHandle ∧
      alookup s'.registry id = some h ∧
      (∀ wh, wh < s.nextHandle → wh ≠ h →
        alookup s'.widgets wh = alookup s.widgets wh) ∧
      ∃ hs,
        alookup s'.widgets h = some { w with children := w.children ++ hs } ∧
        hs.length = cs.length ∧
        (∀ j, j < cs.length → alookup s'.registry (id ++ [i + j]) = hs[j]?)) := by
  intro fuel
  induction fuel with
  | zero =>
    constructor
    · intro id e s s' _ _ _ h
      simp [mountComponent] at h
    · intro id i cs s s' h w _ _ _ _ _ hm
      simp [mountChildren] at hm
  | succ n ih =>
    obtain ⟨ihC, ihK⟩ := ih
    constructor
    · intro id e s s' hne h0 hb h
      simp only [mountComponent] at h
      split at h
      · exact absurd h (by simp)
      · rename_i p hpar
        split at h
        · exact absurd h (by simp)
        · rename_i hdl s₁ hnode
          split at h
          · exact absurd h (by simp)
          · rename_i s₂ hkids
            simp only [MRes.ok.injEq, true_and] at h
            subst h
            have hparS : getParent id s = .ok p := by
              have hgp : getParent id
                  ({ s with components := (aset s.components id
                      ⟨e, normalizeChildren e.childrenProp⟩) } : RState) =
                  getParent id s := getParent_registry_eq id rfl
              rw [hgp] at hpar
              exact hpar
            have hp_lt : p < s.nextHandle := by
              unfold getParent at hparS
              split at hparS
              · simp only [Except.ok.injEq] at hparS
                omega
              · split at hparS
                · simp only [Except.ok.injEq] at hparS
                  subst hparS
                  rename_i hh
                  exact bounded_registry_val hb hh
                · exact absurd hparS (by simp)
            obtain ⟨hhdl, hknown, hnext₁, hreg₁, hcomp₁, hsched₁, htr₁, pw, hpw, hwid₁⟩ :=
              mountNode_spec hnode
            have hhdl' : hdl = s.nextHandle := hhdl
            subst hhdl'
            have hregS : s₁.registry = s.registry := hreg₁
            have hcompS : s₁.components =
                aset s.components id ⟨e, normalizeChildren e.childrenProp⟩ := hcomp₁
            have hnextS : s₁.nextHandle = s.nextHandle + 1 := hnext₁
            have hpwS : alookup s.widgets p = some pw := by
              have hpw' : alookup (aset s.widgets s.nextHandle
                  ⟨e.type, solveClass e.attrs, [], some id⟩) p = some pw := hpw
              rwa [alookup_aset_ne _ _ _ _ (Nat.ne_of_gt hp_lt)] at hpw'
            have hwidS : s₁.widgets = aset (aset s.widgets s.nextHandle
                ⟨e.type, solveClass e.attrs, [], some id⟩) p
                { pw with children := pw.children ++ [s.nextHandle] } := hwid₁
            -- properties of the state after the registry add
            have hb' := hb
            rw [show handlesBounded s =
              (s.widgets.all (fun kw => kw.1 < s.nextHandle) &&
               s.registry.all (fun ih₂ => ih₂.2 < s.nextHandle)) from rfl,
              Bool.and_eq_true] at hb'
            obtain ⟨hbW, hbR⟩ := hb'
            have hb₂ : handlesBounded
                ({ s₁ with registry := (aset s₁.registry id s.nextHandle) } : RState) = true := by
              show (s₁.widgets.all (fun kw => kw.1 < s₁.nextHandle) &&
                (aset s₁.registry id s.nextHandle).all
                  (fun ih₂ => ih₂.2 < s₁.nextHandle)) = true
              rw [Bool.and_eq_true]
              constructor
              · rw [hwidS]
                refine all_aset (all_aset (all_fst_lt_mono hbW ?_) ?_) ?_
                · omega
                · simp only [decide_eq_true_eq]
                  omega
                · simp only [decide_eq_true_eq]
                  omega
              · rw [hregS]
                refine all_aset (all_snd_lt_mono hbR ?_) ?_
                · omega
                · simp only [decide_eq_true_eq]
                  omega
            have hreg₂id : alookup
                ({ s₁ with registry := (aset s₁.registry id s.nextHandle) } : RState).registry id =
                some s.nextHandle := alookup_aset_self _ _ _
            have hwid₂h : alookup
                ({ s₁ with registry := (aset s₁.registry id s.nextHandle) } : RState).widgets
                s.nextHandle =
                some ⟨e.type, solveClass e.attrs, [], some id⟩ := by
              show alookup s₁.widgets s.nextHandle = _
              rw [hwidS, alookup_aset_ne _ _ _ _ (Nat.ne_of_gt hp_lt).symm,
                alookup_aset_self]
            obtain ⟨hbF, hleF, hregF, hwlocF, hs, hwhF, hlenF, hjsF⟩ :=
              ihK id 0 (normalizeChildren e.childrenProp) _ s₂ s.nextHandle
                ⟨e.type, solveClass e.attrs, [], some id⟩ hne
                (by show 0 < s₁.nextHandle; omega) hb₂
                hreg₂id hwid₂h hkids
            have hleF' : s₁.nextHandle ≤ s₂.nextHandle := hleF
            have hcomploc := ((mountLocal n).2 id 0 (normalizeChildren e.childrenProp)
              _ s₂ hkids).1 id (fun j _ => leads_appendOne_self id j)
            refine ⟨hbF, ?_, hregF, ?_, p, pw, hparS, hp_lt, hpwS, ?_, ?_, hs, ?_, hlenF, ?_⟩
            · show s.nextHandle < s₂.nextHandle
              omega
            · -- components entry
              show alookup s₂.components id = _
              rw [hcomploc.2]
              show alookup s₁.components id = _
              rw [hcompS, alookup_aset_self]
            · -- parent widget got exactly one appended child
              show alookup s₂.widgets p = _
              rw [hwlocF p (by show p < s₁.nextHandle; omega) (Nat.ne_of_lt hp_lt)]
              show alookup s₁.widgets p = _
              rw [hwidS, alookup_aset_self]
            · -- locality for other widgets
              intro wh hwh hwhp
              show alookup s₂.widgets wh = _
              rw [hwlocF wh (by show wh < s₁.nextHandle; omega) (by omega)]
              show alookup s₁.widgets wh = _
              rw [hwidS, alookup_aset_ne _ _ _ _ (Ne.symm hwhp),
                alookup_aset_ne _ _ _ _ (by omega)]
            · -- the node's own widget
              show alookup s₂.widgets s.nextHandle = _
              rw [hwhF]
              simp
            · -- children registry entries in order
              intro j hj
              have hj' : j < (normalizeChildren e.childrenProp).length := by omega
              have := hjsF j hj'
              simpa using this
    · intro id i cs s s' h w hne h0 hb hrid hwid hm
      match cs with
      | [] =>
        simp only [mountChildren, MRes.ok.injEq, true_and] at hm
        subst hm
        refine ⟨hb, Nat.le_refl _, hrid, fun wh _ _ => rfl, [], ?_, rfl, ?_⟩
        · rw [List.append_nil]
          exact hwid
        · intro j hj
          simp at hj
      | c :: rest =>
        simp only [mountChildren] at hm
        split at hm
        · exact absurd hm (by simp)
        · rename_i s₁ hc
          obtain ⟨hb₁, hlt₁, hreg₁c, hcomp₁c, p, pw, hparc, hpltc, hpwc, hpwc', hwlocc, hsc,
            hwhc, hlenc, hjsc⟩ :=
            ihC (id ++ [i]) c s s₁ (by simp) h0 hb hc
          have hph : p = h := by
            rw [getParent_appendOne id i hne s, hrid] at hparc
            simp only [Except.ok.injEq] at hparc
            exact hparc.symm
          subst p
          have hpww : pw = w := by
            rw [hpwc] at hwid
            simpa using hwid
          subst w
          have hregid₁ : alookup s₁.registry id = some h := by
            have := ((mountLocal n).1 (id ++ [i]) c s s₁ hc).1 id
              (leads_appendOne_self id i)
            rw [this.1, hrid]
          obtain ⟨hbF, hleF, hregF, hwlocF, hs', hwh', hlen', hjs'⟩ :=
            ihK id (i + 1) rest s₁ s' h
              { pw with children := pw.children ++ [s.nextHandle] }
              hne (by omega) hb₁ hregid₁ hpwc' hm
          refine ⟨hbF, by omega, hregF, ?_, s.nextHandle :: hs', ?_, by simp [hlen'], ?_⟩
          · intro wh hwh hwhh
            rw [hwlocF wh (by omega) hwhh, hwlocc wh hwh hwhh]
          · rw [hwh']
            simp
          · intro j hj
            match j with
            | 0 =>
              have hpres : alookup s'.registry (id ++ [i]) =
                  alookup s₁.registry (id ++ [i]) := by
                refine (((mountLocal n).2 id (i + 1) rest s₁ s' hm).1 (id ++ [i]) ?_).1
                intro j' hj'
                by_cases hlj : leads (id ++ [j']) (id ++ [i]) = true
                · have := leads_appendOne_inj hlj
                  omega
                · simpa using hlj
              simp only [Nat.add_zero]
              rw [hpres, hreg₁c]
              simp
            | jj + 1 =>
              have harith : i + (jj + 1) = (i + 1) + jj := by omega
              rw [harith]
              have hjj : jj < rest.length := by
                simp at hj
                omega
              have := hjs' jj hjj
              simpa using this

theorem treeSize_pos (e : VElement) : 1 ≤ treeSize e := by
  cases e with
  | mk t a c => simp [treeSize]

theorem mount_final_state {fuel : Nat} {id : NodeId} {e : VElement} {s s₁ : RState}
    (hm : mountComponent fuel id e s = .ok () s₁) :
    s₁.renderScheduled = true ∧ ∃ hdl, alookup s₁.registry id = some hdl := by
  match fuel with
  | 0 => simp [mountComponent] at hm
  | n + 1 =>
    simp only [mountComponent] at hm
    split at hm
    · exact absurd hm (by simp)
    · rename_i p hpar
      split at hm
      · exact absurd hm (by simp)
      · rename_i hdl sn hnode
        split at hm
        · exact absurd hm (by simp)
        · rename_i sk hkids
          simp only [MRes.ok.injEq, true_and] at hm
          subst hm
          refine ⟨rfl, hdl, ?_⟩
          show alookup sk.registry id = some hdl
          have hpres := ((mountLocal n).2 id 0 (normalizeChildren e.childrenProp)
            _ sk hkids).1 id (fun j _ => leads_appendOne_self id j)
          rw [hpres.1]
          exact alookup_aset_self _ _ _

theorem runUpdates_preserves_registry {fuel : Nat} {id : NodeId}
    {us : List (VElement × VElement)} {s s' : RState}
    (h : runUpdates fuel id us s = .ok () s') :
    alookup s'.registry id = alookup s.registry id := by
  induction us generalizing s with
  | nil =>
    simp only [runUpdates, MRes.ok.injEq, true_and] at h
    subst h
    rfl
  | cons u rest ih =>
    obtain ⟨nx, pv⟩ := u
    simp only [runUpdates] at h
    split at h
    · exact absurd h (by simp)
    · rename_i s₁ hr
      have h₁ := ((receiveLocal fuel).1 id nx pv s s₁ hr).1 id
        (fun j => leads_appendOne_self id j)
      rw [ih h, h₁]

theorem receive_applies_to_fetched {fuel : Nat} {id : NodeId} {nxt prv : VElement}
    {s s' : RState} (h : receiveComponent fuel id nxt prv s = .ok () s') :
    ∃ hdl, alookup s.registry id = some hdl ∧ alookup s'.registry id = some hdl ∧
      Event.applyOptions hdl ∈ s'.trace := by
  match fuel with
  | 0 => simp [receiveComponent] at h
  | n + 1 =>
    have hpres := ((receiveLocal (n + 1)).1 id nxt prv s s' h).1 id
      (fun j => leads_appendOne_self id j)
    simp only [receiveComponent] at h
    split at h
    · exact absurd h (by simp)
    · rename_i hdl hreg
      split at h
      · exact absurd h (by simp)
      · rename_i w hw
        split at h
        · exact absurd h (by simp)
        · rename_i comp hcomp
          split at h
          · exact absurd h (by simp)
          · rename_i s₂ hkids
            simp only [MRes.ok.injEq, true_and] at h
            subst h
            refine ⟨hdl, hreg, ?_, ?_⟩
            · show alookup s₂.registry id = some hdl
              rw [← hreg]
              exact hpres
            · obtain ⟨t₂, ht₂⟩ := ((receiveLocal n).2 id 0 comp.renderedChildren
                (normalizeChildren nxt.childrenProp) _ s₂ hkids).2
              show Event.applyOptions hdl ∈ s₂.trace ++ [Event.redrawRequest]
              rw [ht₂]
              show Event.applyOptions hdl ∈
                s.trace ++ [Event.applyOptions hdl] ++ t₂ ++ [Event.redrawRequest]
              simp

theorem aset_map_obs {m : List (NodeId × CompState)} {id : NodeId}
    {c₁ c₂ : CompState} (h : compObs c₁ = compObs c₂) :
    (aset m id c₁).map (fun kc => (kc.1, compObs kc.2)) =
    (aset m id c₂).map (fun kc => (kc.1, compObs kc.2)) := by
  induction m with
  | nil => simp [aset, h]
  | cons kv rest ih =>
    obtain ⟨k, v⟩ := kv
    by_cases hk : k = id
    · simp [aset, hk, h]
    · simp [aset, hk, ih]

theorem mountNode_setComps (selfId : NodeId) (parent : Nat) (e : VElement)
    (s : RState) (c : List (NodeId × CompState)) :
    mountNode selfId parent e { s with components := c } =
      (match mountNode selfId parent e s with
       | .ok h s' => .ok h { s' with components := c }
       | .err er s' => .err er { s' with components := c }) := by
  by_cases hk : blessedTypes.contains e.type
  · simp only [mountNode]
    rw [if_pos hk, if_pos hk]
    cases halp : alookup (aset s.widgets s.nextHandle
        ⟨e.type, solveClass e.attrs, [], some selfId⟩) parent with
    | none => rfl
    | some pw => rfl
  · simp only [mountNode]
    rw [if_neg hk, if_neg hk]

theorem enqueueAll_spec (cbs : List Nat) (q : CallbackQueue) :
    enqueueAll ⟨some q⟩ cbs = ⟨some ⟨q.callbacks ++ cbs⟩⟩ := by
  induction cbs generalizing q with
  | nil => simp [enqueueAll]
  | cons cb rest ih =>
    show enqueueAll (enqueueCallback ⟨some q⟩ cb) rest = _
    rw [show enqueueCallback (⟨some q⟩ : ReactBlessedReconcileTransaction) cb =
      ⟨some ⟨q.callbacks ++ [cb]⟩⟩ from rfl, ih]
    simp

theorem construct_fresh_empty (p : QueuePool) :
    ∃ q, (ReactBlessedReconcileTransaction.construct p).1.reactMountReady = some q ∧
      q.callbacks = [] := by
  cases hp : p.pool with
  | nil =>
    refine ⟨⟨[]⟩, ?_, rfl⟩
    simp [ReactBlessedReconcileTransaction.construct, getPooled, hp]
  | cons q qs =>
    refine ⟨{ q with callbacks := [] }, ?_, rfl⟩
    simp [ReactBlessedReconcileTransaction.construct, getPooled, hp]

theorem mountNode_unknown {selfId : NodeId} {parent : Nat} {e : VElement} {s : RState}
    (hunk : blessedTypes.contains e.type = false) :
    mountNode selfId parent e s = .err (.unknownWidgetType e.type) s := by
  rw [mountNode, if_neg]
  rw [hunk]
  exact Bool.false_ne_true

theorem mountNode_counts {selfId : NodeId} {parent : Nat} {e : VElement} {s : RState}
    {h : Nat} {s' : RState} (hm : mountNode selfId parent e s = .ok h s') :
    ∃ t, s'.trace = s.trace ++ t ∧ countRedraw t = 0 ∧ countCreate t = 1 ∧
      countApply t = 0 := by
  unfold mountNode at hm
  split at hm
  · simp only [] at hm
    split at hm
    · exact absurd hm (by simp)
    · rename_i pw hpw
      simp only [MRes.ok.injEq] at hm
      obtain ⟨-, hm⟩ := hm
      subst hm
      exact ⟨[Event.createWidget e.type s.nextHandle, Event.onAnyEvent s.nextHandle,
        Event.attach parent s.nextHandle], by simp, rfl, rfl, rfl⟩
  · exact absurd hm (by simp)

theorem unmountNoOps : ∀ fuel : Nat,
    (∀ id s s', unmountComponent fuel id s = .ok () s' →
      ∃ t, s'.trace = s.trace ++ t ∧ countRedraw t = 0 ∧ countCreate t = 0 ∧
        countApply t = 0) ∧
    (∀ id i cs s s', unmountChildren fuel id i cs s = .ok () s' →
      ∃ t, s'.trace = s.trace ++ t ∧ countRedraw t = 0 ∧ countCreate t = 0 ∧
        countApply t = 0) := by
  intro fuel
  induction fuel with
  | zero =>
    constructor
    · intro id s s' h
      simp [unmountComponent] at h
    · intro id i cs s s' h
      simp [unmountChildren] at h
  | succ n ih =>
    obtain ⟨ihC, ihK⟩ := ih
    constructor
    · intro id s s' h
      simp only [unmountComponent] at h
      split at h
      · exact absurd h (by simp)
      · rename_i comp hcomp
        split at h
        · exact absurd h (by simp)
        · rename_i s₁ hkids
          split at h
          · exact absurd h (by simp)
          · rename_i p hpar
            split at h
            · exact absurd h (by simp)
            · rename_i hdl hreg
              split at h
              · rename_i w pw hw hpw
                simp only [MRes.ok.injEq, true_and] at h
                subst h
                obtain ⟨t, ht, hr, hc, ha⟩ := ihK id 0 comp.renderedChildren s s₁ hkids
                refine ⟨t ++ [Event.offAllEvents hdl, Event.detach p hdl], ?_, ?_, ?_, ?_⟩
                · show s₁.trace ++ [Event.offAllEvents hdl] ++ [Event.detach p hdl] = _
                  rw [ht]
                  simp
                · rw [countRedraw_append, hr]
                  rfl
                · rw [countCreate_append, hc]
                  rfl
                · rw [countApply_append, ha]
                  rfl
              · exact absurd h (by simp)
    · intro id i cs s s' h
      match cs with
      | [] =>
        simp only [unmountChildren, MRes.ok.injEq, true_and] at h
        subst h
        exact ⟨[], by simp, rfl, rfl, rfl⟩
      | c :: rest =>
        simp only [unmountChildren] at h
        split at h
        · exact absurd h (by simp)
        · rename_i s₁ hc
          obtain ⟨t₁, ht₁, hr₁, hc₁, ha₁⟩ := ihC (id ++ [i]) s s₁ hc
          obtain ⟨t₂, ht₂, hr₂, hc₂, ha₂⟩ := ihK id (i + 1) rest s₁ s' h
          refine ⟨t₁ ++ t₂, ?_, ?_, ?_, ?_⟩
          · rw [ht₂, ht₁, List.append_assoc]
          · rw [countRedraw_append, hr₁, hr₂]
          · rw [countCreate_append, hc₁, hc₂]
          · rw [countApply_append, ha₁, ha₂]

theorem mountReqCount : ∀ fuel : Nat,
    (∀ id e s s', mountComponent fuel id e s = .ok () s' →
      ∃ t, s'.trace = s.trace ++ t ∧
        countRedraw t = countCreate t + countApply t) ∧
    (∀ id i cs s s', mountChildren fuel id i cs s = .ok () s' →
      ∃ t, s'.trace = s.trace ++ t ∧
        countRedraw t = countCreate t + countApply t) := by
  intro fuel
  induction fuel with
  | zero =>
    constructor
    · intro id e s s' h
      simp [mountComponent] at h
    · intro id i cs s s' h
      simp [mountChildren] at h
  | succ n ih =>
    obtain ⟨ihC, ihK⟩ := ih
    constructor
    · intro id e s s' h
      simp only [mountComponent] at h
      split at h
      · exact absurd h (by simp)
      · rename_i p hpar
        split at h
        · exact absurd h (by simp)
        · rename_i hdl s₁ hnode
          split at h
          · exact absurd h (by simp)
          · rename_i s₂ hkids
            simp only [MRes.ok.injEq, true_and] at h
            subst h
            obtain ⟨t₁, ht₁, hr₁, hc₁, ha₁⟩ := mountNode_counts hnode
            obtain ⟨t₂, ht₂, h₂⟩ := ihK id 0 (normalizeChildren e.childrenProp)
              _ s₂ hkids
            refine ⟨t₁ ++ t₂ ++ [Event.redrawRequest], ?_, ?_⟩
            · show s₂.trace ++ [Event.redrawRequest] = _
              rw [ht₂]
              show s₁.trace ++ t₂ ++ [Event.redrawRequest] = _
              rw [ht₁]
              simp
            · rw [countRedraw_append, countRedraw_append, countCreate_append,
                countCreate_append, countApply_append, countApply_append,
                hr₁, hc₁, ha₁, h₂]
              simp [countRedraw, countCreate, countApply]
              omega
    · intro id i cs s s' h
      match cs with
      | [] =>
        simp only [mountChildren, MRes.ok.injEq, true_and] at h
        subst h
        exact ⟨[], by simp, rfl⟩
      | c :: rest =>
        simp only [mountChildren] at h
        split at h
        · exact absurd h (by simp)
        · rename_i s₁ hc
          obtain ⟨t₁, ht₁, h₁⟩ := ihC (id ++ [i]) c s s₁ hc
          obtain ⟨t₂, ht₂, h₂⟩ := ihK id (i + 1) rest s₁ s' h
          refine ⟨t₁ ++ t₂, ?_, ?_⟩
          · rw [ht₂, ht₁, List.append_assoc]
          · rw [countRedraw_append, countCreate_append, countApply_append, h₁, h₂]
            omega

theorem receiveReqCount : ∀ fuel : Nat,
    (∀ id nx pv s s', receiveComponent fuel id nx pv s = .ok () s' →
      ∃ t, s'.trace = s.trace ++ t ∧
        countRedraw t = countCreate t + countApply t ∧
        1 ≤ countApply t ∧ 1 ≤ countRedraw t) ∧
    (∀ id i ps ns s s', updateChildren fuel id i ps ns s = .ok () s' →
      ∃ t, s'.trace = s.trace ++ t ∧
        countRedraw t = countCreate t + countApply t) := by
  intro fuel
  induction fuel with
  | zero =>
    constructor
    · intro id nx pv s s' h
      simp [receiveComponent] at h
    · intro id i ps ns s s' h
      simp [updateChildren] at h
  | succ n ih =>
    obtain ⟨ihC, ihK⟩ := ih
    constructor
    · intro id nx pv s s' h
      simp only [receiveComponent] at h
      split at h
      · exact absurd h (by simp)
      · rename_i hdl hreg
        split at h
        · exact absurd h (by simp)
        · rename_i w hw
          split at h
          · exact absurd h (by simp)
          · rename_i comp hcomp
            split at h
            · exact absurd h (by simp)
            · rename_i s₂ hkids
              simp only [MRes.ok.injEq, true_and] at h
              subst h
              obtain ⟨t₂, ht₂, h₂⟩ := ihK id 0 comp.renderedChildren
                (normalizeChildren nx.childrenProp) _ s₂ hkids
              have hcR : countRedraw (Event.applyOptions hdl ::
                  (t₂ ++ [Event.redrawRequest])) = countRedraw t₂ + 1 := by
                simp [countRedraw, countRedraw_append]
              have hcC : countCreate (Event.applyOptions hdl ::
                  (t₂ ++ [Event.redrawRequest])) = countCreate t₂ := by
                simp [countCreate, countCreate_append]
              have hcA : countApply (Event.applyOptions hdl ::
                  (t₂ ++ [Event.redrawRequest])) = countApply t₂ + 1 := by
                simp [countApply, countApply_append]
              refine ⟨Event.applyOptions hdl :: (t₂ ++ [Event.redrawRequest]),
                ?_, ?_, ?_, ?_⟩
              · show s₂.trace ++ [Event.redrawRequest] = _
                rw [ht₂]
                show s.trace ++ [Event.applyOptions hdl] ++ t₂ ++
                  [Event.redrawRequest] = _
                simp
              · rw [hcR, hcC, hcA]
                omega
              · rw [hcA]
                omega
              · rw [hcR]
                omega
    · intro id i ps ns s s' h
      match ps, ns with
      | [], [] =>
        simp only [updateChildren, MRes.ok.injEq, true_and] at h
        subst h
        exact ⟨[], by simp, rfl⟩
      | p :: ps', [] =>
        simp only [updateChildren] at h
        split at h
        · exact absurd h (by simp)
        · rename_i s₁ hu
          obtain ⟨t₁, ht₁, hr₁, hc₁, ha₁⟩ := (unmountNoOps n).1 (id ++ [i]) s s₁ hu
          obtain ⟨t₂, ht₂, h₂⟩ := ihK id (i + 1) ps' [] s₁ s' h
          refine ⟨t₁ ++ t₂, ?_, ?_⟩
          · rw [ht₂, ht₁, List.append_assoc]
          · rw [countRedraw_append, countCreate_append, countApply_append,
              hr₁, hc₁, ha₁, h₂]
            omega
      | [], nx :: ns' =>
        simp only [updateChildren] at h
        split at h
        · exact absurd h (by simp)
        · rename_i s₁ hm
          obtain ⟨t₁, ht₁, h₁⟩ := (mountReqCount n).1 (id ++ [i]) nx s s₁ hm
          obtain ⟨t₂, ht₂, h₂⟩ := ihK id (i + 1) [] ns' s₁ s' h
          refine ⟨t₁ ++ t₂, ?_, ?_⟩
          · rw [ht₂, ht₁, List.append_assoc]
          · rw [countRedraw_append, countCreate_append, countApply_append, h₁, h₂]
            omega
      | p :: ps', nx :: ns' =>
        simp only [updateChildren] at h
        split at h
        · split at h
          · exact absurd h (by simp)
          · rename_i s₁ hr
            obtain ⟨t₁, ht₁, h₁, -, -⟩ := ihC (id ++ [i]) nx p s s₁ hr
            obtain ⟨t₂, ht₂, h₂⟩ := ihK id (i + 1) ps' ns' s₁ s' h
            refine ⟨t₁ ++ t₂, ?_, ?_⟩
            · rw [ht₂, ht₁, List.append_assoc]
            · rw [countRedraw_append, countCreate_append, countApply_append, h₁, h₂]
              omega
        · split at h
          · exact absurd h (by simp)
          · rename_i s₁ hu
            split at h
            · exact absurd h (by simp)
            · rename_i s₂ hm
              obtain ⟨t₁, ht₁, hr₁, hc₁, ha₁⟩ := (unmountNoOps n).1 (id ++ [i]) s s₁ hu
              obtain ⟨t₂, ht₂, h₂⟩ := (mountReqCount n).1 (id ++ [i]) nx s₁ s₂ hm
              obtain ⟨t₃, ht₃, h₃⟩ := ihK id (i + 1) ps' ns' s₂ s' h
              refine ⟨t₁ ++ (t₂ ++ t₃), ?_, ?_⟩
              · rw [ht₃, ht₂, ht₁]
                simp
              · rw [countRedraw_append, countRedraw_append, countCreate_append,
                  countCreate_append, countApply_append, countApply_append,
                  hr₁, hc₁, ha₁, h₂, h₃]
                omega

theorem receive_final_sched {fuel : Nat} {id : NodeId} {nx pv : VElement}
    {s s' : RState} (h : receiveComponent fuel id nx pv s = .ok () s') :
    s'.renderScheduled = true := by
  match fuel with
  | 0 => simp [receiveComponent] at h
  | n + 1 =>
    simp only [receiveComponent] at h
    split at h
    · exact absurd h (by simp)
    · rename_i hdl hreg
      split at h
      · exact absurd h (by simp)
      · rename_i w hw
        split at h
        · exact absurd h (by simp)
        · rename_i comp hcomp
          split at h
          · exact absurd h (by simp)
          · rename_i s₂ hkids
            simp only [MRes.ok.injEq, true_and] at h
            subst h
            rfl

theorem tick_fires {s : RState} (hs : s.renderScheduled = true) :
    (tick s).trace = s.trace ++ [Event.render] ∧ (tick s).renderScheduled = false ∧
    tick (tick s) = tick s := by
  have htick : tick s =
      { s with trace := (s.trace ++ [Event.render]), renderScheduled := false } := by
    unfold tick
    rw [hs]
    simp
  refine ⟨by rw [htick], by rw [htick], ?_⟩
  rw [htick]
  unfold tick
  simp

/-- C1: mounted node identity is preserved across updates.  After mounting a
node and then applying any sequence of successful `receiveComponent` updates to
it, the registry still maps the node's identifier to the very handle recorded at
mount; moreover every single update fetches the widget under that same
identifier, applies the new options to exactly that fetched handle (an
`applyOptions` trace event on it), and leaves the node's registry entry
unchanged — no new widget is ever registered for the node by an update. -/
theorem c1_identity_preserved_across_updates (fm fu : Nat) (id : NodeId)
    (e : VElement) (us : List (VElement × VElement)) (s s₁ s₂ : RState)
    (hm : mountComponent fm id e s = .ok () s₁)
    (hu : runUpdates fu id us s₁ = .ok () s₂) :
    (∃ h, alookup s₁.registry id = some h ∧ alookup s₂.registry id = some h) ∧
    (∀ fuel nxt prv u u', receiveComponent fuel id nxt prv u = .ok () u' →
      ∃ h', alookup u.registry id = some h' ∧ alookup u'.registry id = some h' ∧
        Event.applyOptions h' ∈ u'.trace) := by
  refine ⟨?_, fun fuel nxt prv u u' hr => receive_applies_to_fetched hr⟩
  obtain ⟨-, hdl, hreg⟩ := mount_final_state hm
  exact ⟨hdl, hreg, by rw [runUpdates_preserves_registry hu, hreg]⟩

/-- Witness for C1: mounting the demo box and updating it once keeps the
registry entry for the root identifier at the mount-time handle. -/
theorem c1_witness :
    mountComponent 10 [0] demoBox10 initState = .ok () demoMounted ∧
    runUpdates 10 [0] [(demoBox20, demoBox10)] demoMounted = .ok () demoUpdated ∧
    ((∃ h, alookup demoMounted.registry [0] = some h ∧
        alookup demoUpdated.registry [0] = some h) ∧
     (∀ fuel nxt prv u u', receiveComponent fuel [0] nxt prv u = .ok () u' →
        ∃ h', alookup u.registry [0] = some h' ∧ alookup u'.registry [0] = some h' ∧
          Event.applyOptions h' ∈ u'.trace)) := by
  have h1 : mountComponent 10 [0] demoBox10 initState = .ok () demoMounted := rfl
  have h2 : runUpdates 10 [0] [(demoBox20, demoBox10)] demoMounted =
      .ok () demoUpdated := rfl
  exact ⟨h1, h2, c1_identity_preserved_across_updates 10 10 [0] demoBox10
    [(demoBox20, demoBox10)] initState demoMounted demoUpdated h1 h2⟩

/-- C2: mounting an element whose type names no known widget kind fails with
`UnknownWidgetType`, with the widget-library call trace unchanged (so zero
`createWidget`/`attach` calls happened for the element) and the registry
unchanged (so no entry exists for its identifier). -/
theorem c2_unknown_type_error_containment (fuel : Nat) (id : NodeId) (e : VElement)
    (s : RState) (p : Nat)
    (hunk : blessedTypes.contains e.type = false)
    (hpar : getParent id s = .ok p) :
    ∃ s₂, mountComponent (fuel + 1) id e s = .err (.unknownWidgetType e.type) s₂ ∧
      s₂.trace = s.trace ∧ s₂.registry = s.registry := by
  have hgp : getParent id ({ s with components := (aset s.components id
      ⟨e, normalizeChildren e.childrenProp⟩) } : RState) = .ok p := by
    rw [getParent_registry_eq id rfl]
    exact hpar
  have hrun : mountComponent (fuel + 1) id e s = .err (.unknownWidgetType e.type)
      ({ s with components := (aset s.components id
        ⟨e, normalizeChildren e.childrenProp⟩) } : RState) := by
    simp only [mountComponent]
    simp only [hgp]
    simp only [mountNode_unknown hunk]
  exact ⟨_, hrun, rfl, rfl⟩

/-- Witness for C2: mounting the unknown-typed demo element at the root fails
with `UnknownWidgetType` and leaves trace and registry unchanged. -/
theorem c2_witness :
    blessedTypes.contains demoUnknown.type = false ∧
    getParent [0] initState = .ok 0 ∧
    ∃ s₂, mountComponent 10 [0] demoUnknown initState =
        .err (.unknownWidgetType demoUnknown.type) s₂ ∧
      s₂.trace = initState.trace ∧ s₂.registry = initState.registry :=
  ⟨rfl, rfl, c2_unknown_type_error_containment 9 [0] demoUnknown initState 0 rfl rfl⟩

/-- C3 (code evaluated at the failing input): after mounting a box whose
`onPress` prop is function 1 and updating it to a box whose `onPress` prop is
function 2, dispatching a `press` event still invokes function 1 — the
mount-time handler — because `receiveComponent` in the source never reassigns
`this._currentElement`, so the dispatcher reads the stale mount-time element
instead of the next element's props as the spec requires. -/
theorem c3_dispatch_reads_stale_element :
    receiveComponent 10 [0] demoBox20 demoBox10 demoMounted = .ok () demoUpdated ∧
    alookup demoBox20.attrs (handlerKey "press") = some (.func 2) ∧
    alookup demoBox10.attrs (handlerKey "press") = some (.func 1) ∧
    dispatchEvent demoUpdated 1 "press" [7] = some (1, [7]) :=
  ⟨rfl, rfl, rfl, rfl⟩

/-- C4 counterexample: one pass that mounts a two-node tree (N = 2 mutating
operations) sends two debounced-redraw requests to the widget library, not
exactly one as the claim states. -/
theorem c4_counterexample_two_requests :
    treeSize demoPair = 2 ∧
    countRedraw (mountComponent 10 [0] demoPair initState).state.trace = 2 ∧
    countRedraw (mountComponent 10 [0] demoPair initState).state.trace ≠ 1 :=
  ⟨rfl, rfl, by decide⟩

/-- C4 amended: every mutating operation issues its own debounced-redraw
request.  In any successful pass the number of redraw requests sent to the
widget library equals the number of `createWidget` calls plus the number of
`applyOptions` calls — exactly one request per mount operation and one per
update operation, so a pass with N mutating operations sends exactly N requests
(a mount pass over a tree with k nodes sends k; an update pass sends one for
its `receiveComponent` plus one for each operation its child reconciliation
performs; unmounts contribute none).  The debounce then coalesces the requests:
the next render tick performs exactly one actual render and a further tick
performs none. -/
theorem c4_amended_one_request_per_operation :
    (∀ fuel id e s s', mountComponent fuel id e s = .ok () s' →
      ∃ t, s'.trace = s.trace ++ t ∧
        countRedraw t = countCreate t + countApply t ∧
        countRedraw t = treeSize e ∧ 1 ≤ countRedraw t ∧
        s'.renderScheduled = true ∧
        (tick s').trace = s'.trace ++ [Event.render] ∧ tick (tick s') = tick s') ∧
    (∀ fuel id nx pv s s', receiveComponent fuel id nx pv s = .ok () s' →
      ∃ t, s'.trace = s.trace ++ t ∧
        countRedraw t = countCreate t + countApply t ∧
        1 ≤ countApply t ∧ 1 ≤ countRedraw t ∧
        s'.renderScheduled = true ∧
        (tick s').trace = s'.trace ++ [Event.render] ∧ tick (tick s') = tick s') ∧
    (∀ fuel id s s', unmountComponent fuel id s = .ok () s' →
      ∃ t, s'.trace = s.trace ++ t ∧ countRedraw t = 0 ∧ countCreate t = 0 ∧
        countApply t = 0) := by
  refine ⟨?_, ?_, ?_⟩
  · intro fuel id e s s' hm
    obtain ⟨t, ht, hc⟩ := (mountReqCount fuel).1 id e s s' hm
    have hcnt := (mountCount fuel).1 id e s s' hm
    have hsched := (mount_final_state hm).1
    obtain ⟨h1, h2, h3⟩ := tick_fires hsched
    have htree : countRedraw t = treeSize e := by
      rw [ht, countRedraw_append] at hcnt
      omega
    have hpos : 1 ≤ countRedraw t := by
      have := treeSize_pos e
      omega
    exact ⟨t, ht, hc, htree, hpos, hsched, h1, h3⟩
  · intro fuel id nx pv s s' hr
    obtain ⟨t, ht, hc, ha, hrq⟩ := (receiveReqCount fuel).1 id nx pv s s' hr
    have hsched := receive_final_sched hr
    obtain ⟨h1, h2, h3⟩ := tick_fires hsched
    exact ⟨t, ht, hc, ha, hrq, hsched, h1, h3⟩
  · intro fuel id s s' hu
    exact (unmountNoOps fuel).1 id s s' hu

/-- Witness for C4's amended claim at a concrete mount pass, a concrete update
pass and a concrete unmount. -/
theorem c4_amended_witness :
    mountComponent 10 [0] demoPair initState = .ok () demoPairMounted ∧
    receiveComponent 10 [0] demoBox20 demoBox10 demoMounted = .ok () demoUpdated ∧
    unmountComponent 10 [0] demoMounted = .ok () demoUnmounted ∧
    (∃ t, demoPairMounted.trace = initState.trace ++ t ∧
      countRedraw t = countCreate t + countApply t ∧
      countRedraw t = treeSize demoPair ∧ 1 ≤ countRedraw t ∧
      demoPairMounted.renderScheduled = true ∧
      (tick demoPairMounted).trace = demoPairMounted.trace ++ [Event.render] ∧
      tick (tick demoPairMounted) = tick demoPairMounted) ∧
    (∃ t, demoUpdated.trace = demoMounted.trace ++ t ∧
      countRedraw t = countCreate t + countApply t ∧
      1 ≤ countApply t ∧ 1 ≤ countRedraw t ∧
      demoUpdated.renderScheduled = true ∧
      (tick demoUpdated).trace = demoUpdated.trace ++ [Event.render] ∧
      tick (tick demoUpdated) = tick demoUpdated) ∧
    (∃ t, demoUnmounted.trace = demoMounted.trace ++ t ∧ countRedraw t = 0 ∧
      countCreate t = 0 ∧ countApply t = 0) := by
  have h1 : mountComponent 10 [0] demoPair initState = .ok () demoPairMounted := rfl
  have h2 : receiveComponent 10 [0] demoBox20 demoBox10 demoMounted =
      .ok () demoUpdated := rfl
  have h3 : unmountComponent 10 [0] demoMounted = .ok () demoUnmounted := rfl
  exact ⟨h1, h2, h3,
    c4_amended_one_request_per_operation.1 10 [0] demoPair initState
      demoPairMounted h1,
    c4_amended_one_request_per_operation.2.1 10 [0] demoBox20 demoBox10
      demoMounted demoUpdated h2,
    c4_amended_one_request_per_operation.2.2 10 [0] demoMounted demoUnmounted h3⟩

/-- C5: unmount performs, in order: recursively unmount all rendered children
first (their trace events come first and contain no redraw request), then detach
all event listeners from the node's widget (`offAllEvents`), then remove the
widget from its parent's display children (`detach` and the child-list erase),
then delete the node's registry entry; and the whole unmount issues no
debounced-redraw request and leaves the render flag untouched. -/
theorem c5_unmount_order_and_no_redraw (fuel : Nat) (id : NodeId) (s s' : RState)
    (h p : Nat)
    (hr : alookup s.registry id = some h)
    (hp : getParent id s = .ok p)
    (hph : p ≠ h)
    (hm : unmountComponent (fuel + 1) id s = .ok () s') :
    ∃ comp t s₁ w pw,
      alookup s.components id = some comp ∧
      unmountChildren fuel id 0 comp.renderedChildren s = .ok () s₁ ∧
      s₁.trace = s.trace ++ t ∧ countRedraw t = 0 ∧
      s'.trace = s₁.trace ++ [Event.offAllEvents h, Event.detach p h] ∧
      alookup s₁.widgets h = some w ∧
      alookup s'.widgets h = some { w with dispatcher := none } ∧
      alookup s₁.widgets p = some pw ∧
      alookup s'.widgets p = some { pw with children := (eraseOne pw.children h) } ∧
      alookup s'.registry id = none ∧
      countRedraw s'.trace = countRedraw s.trace ∧
      s'.renderScheduled = s.renderScheduled := by
  simp only [unmountComponent] at hm
  split at hm
  · exact absurd hm (by simp)
  · rename_i comp hcomp
    split at hm
    · exact absurd hm (by simp)
    · rename_i s₁ hkids
      obtain ⟨hregloc, ⟨t, ht, hcnt⟩, hsched⟩ := (unmountLocal fuel).2 id 0
        comp.renderedChildren s s₁ hkids
      have hrid₁ : alookup s₁.registry id = some h := by
        rw [hregloc id (fun j _ => leads_appendOne_self id j)]
        exact hr
      have hgp₁ : getParent id s₁ = .ok p := by
        rw [← hp]
        unfold getParent
        cases hdl : id.dropLast with
        | nil => rfl
        | cons x xs =>
          have hco := congrArg List.length hdl
          rw [List.length_dropLast] at hco
          have hpre : alookup s₁.registry (x :: xs) = alookup s.registry (x :: xs) := by
            refine hregloc (x :: xs) ?_
            intro j _
            refine leads_false_of_length ?_
            simp at hco ⊢
            omega
          show (match alookup s₁.registry (x :: xs) with
            | some hh => Except.ok hh
            | none => Except.error (RErr.unknownNode (x :: xs))) =
            (match alookup s.registry (x :: xs) with
            | some hh => Except.ok hh
            | none => Except.error (RErr.unknownNode (x :: xs)))
          rw [hpre]
      split at hm
      · exact absurd hm (by simp)
      · rename_i p' hpar'
        rw [hgp₁] at hpar'
        simp only [Except.ok.injEq] at hpar'
        subst hpar'
        split at hm
        · exact absurd hm (by simp)
        · rename_i h' hreg'
          rw [hrid₁] at hreg'
          simp only [Option.some.injEq] at hreg'
          subst hreg'
          split at hm
          · rename_i w pw hw hpw
            simp only [MRes.ok.injEq, true_and] at hm
            subst hm
            refine ⟨comp, t, s₁, w, pw, hcomp, hkids, ht, hcnt, ?_, hw, ?_, hpw,
              ?_, ?_, ?_, hsched⟩
            · show s₁.trace ++ [Event.offAllEvents h] ++ [Event.detach p h] = _
              simp
            · show alookup (aset (aset s₁.widgets h _) p _) h = _
              rw [alookup_aset_ne _ _ _ _ hph, alookup_aset_self]
            · exact alookup_aset_self _ _ _
            · exact alookup_adrop_self _ _
            · show countRedraw (s₁.trace ++ [Event.offAllEvents h] ++ [Event.detach p h]) = _
              rw [countRedraw_append, countRedraw_append, ht, countRedraw_append, hcnt]
              simp [countRedraw]
          · exact absurd hm (by simp)

/-- Witness for C5: unmounting the mounted demo box. -/
theorem c5_witness :
    alookup demoMounted.registry [0] = some 1 ∧
    getParent [0] demoMounted = .ok 0 ∧
    (0 : Nat) ≠ 1 ∧
    unmountComponent 10 [0] demoMounted = .ok () demoUnmounted ∧
    ∃ comp t s₁ w pw,
      alookup demoMounted.components [0] = some comp ∧
      unmountChildren 9 [0] 0 comp.renderedChildren demoMounted = .ok () s₁ ∧
      s₁.trace = demoMounted.trace ++ t ∧ countRedraw t = 0 ∧
      demoUnmounted.trace = s₁.trace ++ [Event.offAllEvents 1, Event.detach 0 1] ∧
      alookup s₁.widgets 1 = some w ∧
      alookup demoUnmounted.widgets 1 = some { w with dispatcher := none } ∧
      alookup s₁.widgets 0 = some pw ∧
      alookup demoUnmounted.widgets 0 =
        some { pw with children := (eraseOne pw.children 1) } ∧
      alookup demoUnmounted.registry [0] = none ∧
      countRedraw demoUnmounted.trace = countRedraw demoMounted.trace ∧
      demoUnmounted.renderScheduled = demoMounted.renderScheduled := by
  refine ⟨rfl, rfl, by decide, rfl, ?_⟩
  exact c5_unmount_order_and_no_redraw 9 [0] demoMounted demoUnmounted 1 0
    rfl rfl (by decide) rfl

/-- C6: for a mounted node, the mount-time dispatcher resolves a fired event by
looking up the prop named `'on' + startCase(eventName)` on the component's
current element's props: if that prop is present and is a function value it is
invoked with the event's arguments, and otherwise — absent or not callable —
the event is silently ignored (result `none`), never an error. -/
theorem c6_dispatcher_handler_convention (fuel : Nat) (id : NodeId) (e : VElement)
    (s s' : RState) (ev : String) (args : List Nat)
    (hne : id ≠ []) (h0 : 0 < s.nextHandle) (hb : handlesBounded s = true)
    (hm : mountComponent fuel id e s = .ok () s') :
    ∃ hdl, alookup s'.registry id = some hdl ∧
      dispatchEvent s' hdl ev args =
        (match alookup e.attrs (handlerKey ev) with
         | some (PVal.func f) => some (f, args)
         | _ => none) := by
  obtain ⟨-, -, hreg, hcompF, p, pw, -, -, -, -, -, hs, hwh, -, -⟩ :=
    (mountStruct fuel).1 id e s s' hne h0 hb hm
  refine ⟨s.nextHandle, hreg, ?_⟩
  unfold dispatchEvent
  simp only [hwh, hcompF]

/-- Witness for C6: dispatching `press` on the mounted demo box invokes its
`onPress` handler (function 1) with the event arguments. -/
theorem c6_witness :
    ([0] : NodeId) ≠ [] ∧ 0 < initState.nextHandle ∧
    handlesBounded initState = true ∧
    mountComponent 10 [0] demoBox10 initState = .ok () demoMounted ∧
    ∃ hdl, alookup demoMounted.registry [0] = some hdl ∧
      dispatchEvent demoMounted hdl "press" [5] =
        (match alookup demoBox10.attrs (handlerKey "press") with
         | some (PVal.func f) => some (f, [5])
         | _ => none) := by
  refine ⟨by decide, by decide, rfl, rfl, ?_⟩
  exact c6_dispatcher_handler_convention 10 [0] demoBox10 initState demoMounted
    "press" [5] (by decide) (by decide) rfl rfl

/-- C7: mount attaches the new widget as the last display child of the parent
widget (append-only), and the mounted node's own widget lists its children's
handles in exactly the order of the virtual children sequence: the j-th display
child is the registry handle of the j-th virtual child's identifier. -/
theorem c7_append_order_matches_virtual (fuel : Nat) (id : NodeId) (e : VElement)
    (s s' : RState)
    (hne : id ≠ []) (h0 : 0 < s.nextHandle) (hb : handlesBounded s = true)
    (hm : mountComponent fuel id e s = .ok () s') :
    ∃ hdl p pw w,
      alookup s'.registry id = some hdl ∧
      getParent id s = .ok p ∧
      alookup s.widgets p = some pw ∧
      alookup s'.widgets p = some { pw with children := (pw.children ++ [hdl]) } ∧
      alookup s'.widgets hdl = some w ∧
      w.children.length = (normalizeChildren e.childrenProp).length ∧
      (∀ j, j < w.children.length →
        alookup s'.registry (id ++ [j]) = w.children[j]?) := by
  obtain ⟨-, -, hreg, -, p, pw, hpar, -, hpw, hpw', -, hs, hwh, hlen, hjs⟩ :=
    (mountStruct fuel).1 id e s s' hne h0 hb hm
  refine ⟨s.nextHandle, p, pw, _, hreg, hpar, hpw, hpw', hwh, ?_, ?_⟩
  · exact hlen
  · intro j hj
    exact hjs j hj

/-- Witness for C7: mounting the two-node demo tree at the root attaches the box
to the screen and its one child in virtual order. -/
theorem c7_witness :
    ([0] : NodeId) ≠ [] ∧ 0 < initState.nextHandle ∧
    handlesBounded initState = true ∧
    mountComponent 10 [0] demoPair initState = .ok () demoPairMounted ∧
    ∃ hdl p pw w,
      alookup demoPairMounted.registry [0] = some hdl ∧
      getParent [0] initState = .ok p ∧
      alookup initState.widgets p = some pw ∧
      alookup demoPairMounted.widgets p =
        some { pw with children := (pw.children ++ [hdl]) } ∧
      alookup demoPairMounted.widgets hdl = some w ∧
      w.children.length = (normalizeChildren demoPair.childrenProp).length ∧
      (∀ j, j < w.children.length →
        alookup demoPairMounted.registry ([0] ++ [j]) = w.children[j]?) := by
  refine ⟨by decide, by decide, rfl, rfl, ?_⟩
  exact c7_append_order_matches_virtual 10 [0] demoPair initState demoPairMounted
    (by decide) (by decide) rfl rfl

/-- C10: the node's registry entry is added before any child is mounted: the
children fold starts from an intermediate state in which the identifier already
maps to the node's created widget, that widget is already attached to the
parent's display children, and every child identifier's parent lookup already
resolves to the node's handle; the entry still holds that handle when the
children fold finishes. -/
theorem c10_registry_added_before_children (fuel : Nat) (id : NodeId) (e : VElement)
    (s s' : RState)
    (hne : id ≠ []) (h0 : 0 < s.nextHandle) (hb : handlesBounded s = true)
    (hm : mountComponent (fuel + 1) id e s = .ok () s') :
    ∃ p hdl sMid sKids,
      getParent id s = .ok p ∧
      alookup sMid.registry id = some hdl ∧
      (∃ w, alookup sMid.widgets hdl = some w ∧ w.kind = e.type ∧
        w.dispatcher = some id) ∧
      (∃ pw, alookup sMid.widgets p = some pw ∧ hdl ∈ pw.children) ∧
      (∀ j, getParent (id ++ [j]) sMid = .ok hdl) ∧
      mountChildren fuel id 0 (normalizeChildren e.childrenProp) sMid = .ok () sKids ∧
      alookup sKids.registry id = some hdl ∧
      s' = { sKids with
        trace := (sKids.trace ++ [Event.redrawRequest]), renderScheduled := true } := by
  simp only [mountComponent] at hm
  split at hm
  · exact absurd hm (by simp)
  · rename_i p hpar
    split at hm
    · exact absurd hm (by simp)
    · rename_i hdl s₁ hnode
      split at hm
      · exact absurd hm (by simp)
      · rename_i s₂ hkids
        simp only [MRes.ok.injEq, true_and] at hm
        subst hm
        have hparS : getParent id s = .ok p := by
          have hgp : getParent id
              ({ s with components := (aset s.components id
                  ⟨e, normalizeChildren e.childrenProp⟩) } : RState) =
              getParent id s := getParent_registry_eq id rfl
          rw [hgp] at hpar
          exact hpar
        have hp_lt : p < s.nextHandle := by
          unfold getParent at hparS
          split at hparS
          · simp only [Except.ok.injEq] at hparS
            omega
          · split at hparS
            · simp only [Except.ok.injEq] at hparS
              subst hparS
              rename_i hh
              exact bounded_registry_val hb hh
            · exact absurd hparS (by simp)
        obtain ⟨hhdl, hknown, hnext₁, hreg₁, hcomp₁, hsched₁, htr₁, pw, hpw, hwid₁⟩ :=
          mountNode_spec hnode
        have hhdl' : hdl = s.nextHandle := hhdl
        subst hhdl'
        have hwidS : s₁.widgets = aset (aset s.widgets s.nextHandle
            ⟨e.type, solveClass e.attrs, [], some id⟩) p
            { pw with children := pw.children ++ [s.nextHandle] } := hwid₁
        refine ⟨p, s.nextHandle, _, s₂, hparS, alookup_aset_self _ _ _, ?_, ?_, ?_,
          hkids, ?_, rfl⟩
        · refine ⟨⟨e.type, solveClass e.attrs, [], some id⟩, ?_, rfl, rfl⟩
          show alookup s₁.widgets s.nextHandle = _
          rw [hwidS, alookup_aset_ne _ _ _ _ (Nat.ne_of_gt hp_lt).symm,
            alookup_aset_self]
        · refine ⟨{ pw with children := pw.children ++ [s.nextHandle] }, ?_, by simp⟩
          show alookup s₁.widgets p = _
          rw [hwidS, alookup_aset_self]
        · intro j
          rw [getParent_appendOne id j hne]
          rw [show alookup
              ({ s₁ with registry := (aset s₁.registry id s.nextHandle) } : RState).registry
              id = some s.nextHandle from alookup_aset_self _ _ _]
        · have hpres := ((mountLocal fuel).2 id 0 (normalizeChildren e.childrenProp)
            _ s₂ hkids).1 id (fun j _ => leads_appendOne_self id j)
          rw [hpres.1]
          exact alookup_aset_self _ _ _

/-- Witness for C10 at the two-node demo tree. -/
theorem c10_witness :
    ([0] : NodeId) ≠ [] ∧ 0 < initState.nextHandle ∧
    handlesBounded initState = true ∧
    mountComponent 10 [0] demoPair initState = .ok () demoPairMounted ∧
    ∃ p hdl sMid sKids,
      getParent [0] initState = .ok p ∧
      alookup sMid.registry [0] = some hdl ∧
      (∃ w, alookup sMid.widgets hdl = some w ∧ w.kind = demoPair.type ∧
        w.dispatcher = some [0]) ∧
      (∃ pw, alookup sMid.widgets p = some pw ∧ hdl ∈ pw.children) ∧
      (∀ j, getParent ([0] ++ [j]) sMid = .ok hdl) ∧
      mountChildren 9 [0] 0 (normalizeChildren demoPair.childrenProp) sMid =
        .ok () sKids ∧
      alookup sKids.registry [0] = some hdl ∧
      demoPairMounted = { sKids with
        trace := (sKids.trace ++ [Event.redrawRequest]), renderScheduled := true } := by
  refine ⟨by decide, by decide, rfl, rfl, ?_⟩
  exact c10_registry_added_before_children 9 [0] demoPair initState demoPairMounted
    (by decide) (by decide) rfl rfl

/-- C8: a virtual element whose props contain no `children` key is reconciled
exactly as if the children prop were the empty ordered sequence: an update to it
produces literally the same outcome as an update to its empty-children twin, and
a mount produces an observationally equal outcome (the two final states can
differ only in the unread `children` field of the element stored inside the
component instance). -/
theorem c8_absent_children_is_empty (fuel : Nat) (id : NodeId) (t : String)
    (attrs : List (String × PVal)) (prv : VElement) (s : RState) :
    receiveComponent fuel id (.mk t attrs .absent) prv s =
      receiveComponent fuel id (.mk t attrs (.list [])) prv s ∧
    obsEqR (mountComponent fuel id (.mk t attrs .absent) s)
           (mountComponent fuel id (.mk t attrs (.list [])) s) := by
  constructor
  · match fuel with
    | 0 => rfl
    | n + 1 =>
      simp only [receiveComponent, VElement.attrs, VElement.childrenProp,
        normalizeChildren]
  · match fuel with
    | 0 => exact ⟨rfl, ⟨rfl, rfl, rfl, rfl, rfl, rfl⟩⟩
    | n + 1 =>
      simp only [mountComponent, VElement.childrenProp, normalizeChildren]
      have ha : getParent id ({ s with components := (aset s.components id
          ⟨VElement.mk t attrs Children.absent, []⟩) } : RState) =
          getParent id s := getParent_registry_eq id rfl
      have hb : getParent id ({ s with components := (aset s.components id
          ⟨VElement.mk t attrs (Children.list []), []⟩) } : RState) =
          getParent id s := getParent_registry_eq id rfl
      cases hgp : getParent id s with
      | error er =>
        simp only [ha, hb, hgp]
        exact ⟨rfl, rfl, rfl, rfl, rfl, rfl, aset_map_obs rfl⟩
      | ok p =>
        simp only [ha, hb, hgp]
        rw [mountNode_setComps id p (VElement.mk t attrs Children.absent) s _,
          mountNode_setComps id p (VElement.mk t attrs (Children.list [])) s _]
        have hsame : mountNode id p (VElement.mk t attrs (Children.list [])) s =
            mountNode id p (VElement.mk t attrs Children.absent) s := rfl
        rw [hsame]
        cases hmn : mountNode id p (VElement.mk t attrs Children.absent) s with
        | err er s₁ =>
          simp only [hmn]
          exact ⟨rfl, rfl, rfl, rfl, rfl, rfl, aset_map_obs rfl⟩
        | ok hdl s₁ =>
          simp only [hmn]
          cases n with
          | zero =>
            simp only [mountChildren]
            exact ⟨rfl, rfl, rfl, rfl, rfl, rfl, aset_map_obs rfl⟩
          | succ m =>
            simp only [mountChildren]
            exact ⟨rfl, rfl, rfl, rfl, rfl, aset_map_obs rfl⟩

/-- C9: beginning a pass builds the transaction with a callback queue that
starts empty (whether freshly allocated or recycled from the pool, its
constructor leaves it empty); after any callbacks are enqueued during the pass,
destroying the pass nulls the transaction's queue reference and releases the
queue — reset to empty — back to the pool, so the queue's lifetime is exactly
the one pass. -/
theorem c9_pass_queue_lifecycle (p : QueuePool) (cbs : List Nat) :
    (∃ q, getReactMountReady (ReactBlessedReconcileTransaction.construct p).1 = some q ∧
      q.callbacks = []) ∧
    ((enqueueAll (ReactBlessedReconcileTransaction.construct p).1 cbs).destructor
        (ReactBlessedReconcileTransaction.construct p).2).1.reactMountReady = none ∧
    ∃ q', ((enqueueAll (ReactBlessedReconcileTransaction.construct p).1 cbs).destructor
        (ReactBlessedReconcileTransaction.construct p).2).2.pool =
      q' :: (ReactBlessedReconcileTransaction.construct p).2.pool ∧
      q'.callbacks = [] := by
  obtain ⟨q, hq, hqe⟩ := construct_fresh_empty p
  have ht : (ReactBlessedReconcileTransaction.construct p).1 =
      (⟨some q⟩ : ReactBlessedReconcileTransaction) := by
    rw [← hq]
  refine ⟨⟨q, hq, hqe⟩, ?_, ?_⟩
  · rw [ht, enqueueAll_spec]
    rfl
  · rw [ht, enqueueAll_spec]
    exact ⟨⟨[]⟩, rfl, rfl⟩

end RB
